import Mathlib

/-!
Verification development for the SPRBUN-PRECOSTEOS repository
(`MODULES/CREATE_PRECOSTEO_PDF.py`, `MODULES/CREATE_RESUME.py`, `main.py`).

Python strings are embedded as `List Char` (ASCII-faithful); Python floats
are embedded as exact rationals `ℚ` (nonfinite values `inf`/`nan`, which lie
outside ℚ, are outside the model); Python `datetime.date` values are embedded
as a year/month/day record validated exactly as `datetime.date.__new__` does.
Millimetre coordinates of the PDF canvas are exact rationals.
-/

namespace Precosteo

/-! ### Python string primitives on `List Char` -/

/-- Whitespace characters stripped by Python's `str.strip()` (ASCII range). -/
def pyIsSpace (c : Char) : Bool :=
  c = ' ' || c = '\t' || c = '\n' || c = '\r' || c = '\x0b' || c = '\x0c'

/-- Python `str.strip()`: drop leading and trailing whitespace. -/
def pyStrip (l : List Char) : List Char :=
  ((l.dropWhile pyIsSpace).reverse.dropWhile pyIsSpace).reverse

/-- Python `str.lower()` (ASCII). -/
def pyLower (l : List Char) : List Char := l.map Char.toLower

/-- Python `str.upper()` (ASCII). -/
def pyUpper (l : List Char) : List Char := l.map Char.toUpper

/-- Python `str.replace(a, b)` for single-character pattern and replacement:
a character map. -/
def pyReplaceChar (a b : Char) (l : List Char) : List Char :=
  l.map (fun c => if c = a then b else c)

/-- Python `str.replace(a, "")` for a single-character pattern: removal. -/
def pyRemoveChar (a : Char) (l : List Char) : List Char :=
  l.filter (fun c => c ≠ a)

/-- Python `str.split(sep)` for a single-character separator: splits at every
occurrence, keeping empty chunks (`"".split(sep) = [""]`). -/
def pySplit (sep : Char) : List Char → List (List Char)
  | [] => [[]]
  | c :: cs =>
    if c = sep then [] :: pySplit sep cs
    else
      match pySplit sep cs with
      | [] => [[c]]
      | t :: ts => (c :: t) :: ts

/-- Numeric value of a list of decimal digit characters (most significant first). -/
def digitsToNat (l : List Char) : ℕ :=
  l.foldl (fun a c => 10 * a + (c.toNat - 48)) 0

/-- Every character is a decimal digit and the list is nonempty. -/
def isDigits (l : List Char) : Bool :=
  !l.isEmpty && l.all Char.isDigit

/-- A digit run as accepted inside Python numeric literals: nonempty, starts
and ends with a digit, only digits and underscores, and no two adjacent
underscores (`int("1_0") = 10`, `int("1__0")` and `int("_1")` raise). -/
def uDigitsValid (l : List Char) : Bool :=
  !l.isEmpty
    && l.all (fun c => c.isDigit || c = '_')
    && (match l.head? with | some c => c.isDigit | none => false)
    && (match l.getLast? with | some c => c.isDigit | none => false)
    && (l.zip l.tail).all (fun p => !(p.1 = '_' && p.2 = '_'))

/-- Value of a valid underscore-digit run. -/
def uDigitsVal (l : List Char) : ℕ :=
  digitsToNat (l.filter (fun c => c ≠ '_'))

/-- Python `int(s)` on a string: optional surrounding whitespace, optional
sign, then an underscore-digit run; `None` when `int` would raise. -/
def pyInt (l : List Char) : Option ℤ :=
  if (pyStrip l).head? = some '+' then
    (if uDigitsValid (pyStrip l).tail then some (uDigitsVal (pyStrip l).tail : ℤ) else none)
  else if (pyStrip l).head? = some '-' then
    (if uDigitsValid (pyStrip l).tail then some (-(uDigitsVal (pyStrip l).tail : ℤ)) else none)
  else if uDigitsValid (pyStrip l) then some (uDigitsVal (pyStrip l) : ℤ) else none

/-! ### Python floats as exact rationals -/

/-- Split a list at the first occurrence of a character satisfying `p`. -/
def splitFirst (p : Char → Bool) : List Char → (List Char × Option (List Char))
  | [] => ([], none)
  | c :: cs =>
    if p c then ([], some cs)
    else
      let r := splitFirst p cs
      (c :: r.1, r.2)

/-- Mantissa of a Python float literal: `digits`, `digits.`, `.digits` or
`digits.digits`, with underscore-digit runs. -/
def pyFloatMantissa (l : List Char) : Option ℚ :=
  let (ip, fp?) := splitFirst (fun c => c = '.') l
  match fp? with
  | none => if uDigitsValid ip then some ((uDigitsVal ip : ℚ)) else none
  | some fp =>
    if ip.isEmpty && fp.isEmpty then none
    else if !ip.isEmpty && !uDigitsValid ip then none
    else if !fp.isEmpty && !uDigitsValid fp then none
    else
      let ipv : ℚ := if ip.isEmpty then 0 else (uDigitsVal ip : ℚ)
      let fdigits := fp.filter (fun c => c ≠ '_')
      let fpv : ℚ := if fp.isEmpty then 0 else
        (digitsToNat fdigits : ℚ) / ((10 : ℚ) ^ fdigits.length)
      some (ipv + fpv)

/-- Unsigned body of a Python float literal, with optional exponent. -/
def pyFloatBody (l : List Char) : Option ℚ :=
  let (mant, expPart?) := splitFirst (fun c => c = 'e' || c = 'E') l
  match expPart? with
  | none => pyFloatMantissa mant
  | some ex =>
    match pyFloatMantissa mant with
    | none => none
    | some m =>
      let sgnDigits : ℤ × List Char :=
        if ex.head? = some '+' then (1, ex.tail)
        else if ex.head? = some '-' then (-1, ex.tail)
        else (1, ex)
      if uDigitsValid sgnDigits.2 then
        let e := uDigitsVal sgnDigits.2
        if sgnDigits.1 = 1 then some (m * (10 : ℚ) ^ e) else some (m / (10 : ℚ) ^ e)
      else none

/-- Python `float(s)` on a string, as an exact rational. Nonfinite inputs
(`"inf"`, `"nan"`, …), which have no rational value, are outside the model
and map to `none`. -/
def pyFloatStr (l : List Char) : Option ℚ :=
  if (pyStrip l).head? = some '+' then pyFloatBody (pyStrip l).tail
  else if (pyStrip l).head? = some '-' then
    (pyFloatBody (pyStrip l).tail).map (fun q => -q)
  else pyFloatBody (pyStrip l)

/-! ### Calendar dates (`datetime.date`) -/

/-- A Python `datetime.date`: the constructor validates the ranges, so every
constructed value satisfies them (see `mkDate`). -/
structure Date where
  y : ℤ
  m : ℤ
  d : ℤ
deriving DecidableEq, Repr

/-- Gregorian leap-year rule used by `datetime`. -/
def isLeap (y : ℤ) : Bool :=
  y % 4 = 0 && (y % 100 ≠ 0 || y % 400 = 0)

/-- Days in a month, as `datetime` computes it. -/
def daysInMonth (y m : ℤ) : ℤ :=
  if m = 2 then (if isLeap y then 29 else 28)
  else if m = 4 || m = 6 || m = 9 || m = 11 then 30
  else 31

/-- Python `datetime.date(y, m, d)`: `none` exactly when the constructor
raises (`MINYEAR = 1`, `MAXYEAR = 9999`). -/
def mkDate (y m d : ℤ) : Option Date :=
  if 1 ≤ y && y ≤ 9999 && 1 ≤ m && m ≤ 12 && 1 ≤ d && d ≤ daysInMonth y m then
    some ⟨y, m, d⟩
  else none

/-- Lexicographic comparison of dates, as Python compares `date` objects. -/
def Date.leb (a b : Date) : Bool :=
  a.y < b.y || (a.y = b.y && (a.m < b.m || (a.m = b.m && a.d ≤ b.d)))

/-! ### Cell values of the ledger (`PyVal`) -/

/-- A Python value as it occurs in a ledger cell or a date argument. -/
inductive PyVal where
  | noneV : PyVal
  | strV (s : List Char) : PyVal
  | intV (n : ℤ) : PyVal
  | numV (q : ℚ) : PyVal
  | dateV (d : Date) : PyVal
  | datetimeV (d : Date) : PyVal
deriving DecidableEq, Repr

/-- Decimal digits of the fractional part of a nonnegative rational, up to
`fuel` digits (Python float reprs terminate well within 17 digits for the
terminating decimals that arise from spreadsheet data). -/
def fracDigits : ℕ → ℚ → List Char
  | 0, _ => []
  | fuel + 1, r =>
    if r = 0 then []
    else
      let r10 := r * 10
      let d := r10.floor
      Char.ofNat (48 + d.toNat) :: fracDigits fuel (r10 - (d : ℚ))

/-- Decimal rendering of an exact rational, matching Python `str(float)` on
terminating decimals: `str(3.0) = "3.0"`, `str(1.21) = "1.21"`. -/
def ratRepr (q : ℚ) : List Char :=
  let sgn : List Char := if q < 0 then ['-'] else []
  let a := |q|
  let ip := a.floor.toNat
  let fr := a - (a.floor : ℚ)
  let fd := fracDigits 17 fr
  sgn ++ (Nat.repr ip).data ++ '.' :: (if fd.isEmpty then ['0'] else fd)

/-- Zero-padded two-digit rendering of a natural number below 100. -/
def pad2 (n : ℕ) : List Char :=
  if n < 10 then '0' :: (Nat.repr n).data else (Nat.repr n).data

/-- Zero-padded four-digit rendering of a year. -/
def pad4 (n : ℕ) : List Char :=
  if n < 10 then '0' :: '0' :: '0' :: (Nat.repr n).data
  else if n < 100 then '0' :: '0' :: (Nat.repr n).data
  else if n < 1000 then '0' :: (Nat.repr n).data
  else (Nat.repr n).data

/-- ISO rendering of a date, as Python `str(date)`. -/
def dateIso (d : Date) : List Char :=
  pad4 d.y.toNat ++ '-' :: pad2 d.m.toNat ++ '-' :: pad2 d.d.toNat

/-- Python `str(x)` on a cell value. -/
def pyStr : PyVal → List Char
  | .noneV => ['N', 'o', 'n', 'e']
  | .strV s => s
  | .intV n => (Int.repr n).data
  | .numV q => ratRepr q
  | .dateV d => dateIso d
  | .datetimeV d => dateIso d ++ (" 00:00:00".data)

/-- Python `float(x)` on a cell value (`float` of `None`/`date` raises). -/
def pyFloat : PyVal → Option ℚ
  | .noneV => none
  | .strV s => pyFloatStr s
  | .intV n => some (n : ℚ)
  | .numV q => some q
  | .dateV _ => none
  | .datetimeV _ => none

/-! ### `CreatePrecostoPDF._to_date` — date normalization

`strptime` with the five fixed formats is embedded token-wise: a format such
as `"%d/%m/%Y"` matches a string exactly when splitting on its separator
yields three chunks each fully matched by the corresponding field pattern
(CPython compiles `%d` to `3[01]|[12]\d|0[1-9]|[1-9]`, `%m` to
`1[0-2]|0[1-9]|[1-9]`, `%Y` to four digits; a field can never end before
trailing digits of its chunk, since the following literal separator would
then face a digit, so full-chunk matching is equivalent). A successful
format still raises (and falls through) when the day exceeds the month
length, which `mkDate` captures. -/

/-- Token accepted by `strptime`'s `%d` field (`3[01]|[12]\d|0[1-9]|[1-9]`):
one or two digits with value `1`–`31` (equivalently: `1`–`9` for one digit,
`01`–`31` for two digits, `00` excluded). -/
def tokDay (l : List Char) : Option ℤ :=
  if (l.length = 1 ∨ l.length = 2) ∧ l.all Char.isDigit = true
      ∧ 1 ≤ digitsToNat l ∧ digitsToNat l ≤ 31
  then some ((digitsToNat l : ℕ) : ℤ) else none

/-- Token accepted by `strptime`'s `%m` field (`1[0-2]|0[1-9]|[1-9]`):
one or two digits with value `1`–`12`. -/
def tokMonth (l : List Char) : Option ℤ :=
  if (l.length = 1 ∨ l.length = 2) ∧ l.all Char.isDigit = true
      ∧ 1 ≤ digitsToNat l ∧ digitsToNat l ≤ 12
  then some ((digitsToNat l : ℕ) : ℤ) else none

/-- Token accepted by `strptime`'s `%Y` field: exactly four digits. -/
def tokYear (l : List Char) : Option ℤ :=
  if l.length = 4 && isDigits l then some ((digitsToNat l : ℕ) : ℤ) else none

/-- Which of the three date fields a format chunk stands for. -/
inductive DField | day | month | year

/-- Parse one chunk with one field pattern. -/
def parseField : DField → List Char → Option ℤ
  | .day, l => tokDay l
  | .month, l => tokMonth l
  | .year, l => tokYear l

/-- One `strptime` attempt: a separator and the field order. -/
def strptime3 (sep : Char) (f1 f2 f3 : DField)
    (assemble : ℤ → ℤ → ℤ → Option Date) (s : List Char) : Option Date :=
  match pySplit sep s with
  | [a, b, c] =>
    match parseField f1 a, parseField f2 b, parseField f3 c with
    | some va, some vb, some vc => assemble va vb vc
    | _, _, _ => none
  | _ => none

/-- The five formats tried by `_to_date`, in source order:
`%Y-%m-%d`, `%d/%m/%Y`, `%m/%d/%Y`, `%d-%m-%Y`, `%Y/%m/%d`. -/
def tryFormats (s : List Char) : Option Date :=
  (strptime3 '-' .year .month .day (fun y m d => mkDate y m d) s).orElse fun _ =>
  (strptime3 '/' .day .month .year (fun d m y => mkDate y m d) s).orElse fun _ =>
  (strptime3 '/' .month .day .year (fun m d y => mkDate y m d) s).orElse fun _ =>
  (strptime3 '-' .day .month .year (fun d m y => mkDate y m d) s).orElse fun _ =>
  (strptime3 '/' .year .month .day (fun y m d => mkDate y m d) s)

/-- The manual three-part fallback of `_to_date`: replace `.` and `-` by `/`,
split, keep nonempty parts, and when there are three parts and the third is
four characters long, guess the ordering by magnitude — values `> 12` cannot
be months, and the tie-break is day-first. -/
def heuristicParts (s : List Char) : Option Date :=
  let parts := (pySplit '/' (pyReplaceChar '-' '/' (pyReplaceChar '.' '/' s))).filter
    (fun p => !p.isEmpty)
  match parts with
  | [a, b, c] =>
    match pyInt a, pyInt b, pyInt c with
    | some da, some db, some dc =>
      if c.length = 4 then
        if da > 12 then mkDate dc db da
        else if db > 12 then mkDate dc da db
        else mkDate dc db da
      else none
    | _, _, _ => none
  | _ => none

/-- String branch of `CreatePrecostoPDF._to_date` (after `str(x)`). -/
def toDateStr (s0 : List Char) : Option Date :=
  let s := pyStrip s0
  if s.isEmpty || pyLower s = ['n', 'a', 'n'] then none
  else (tryFormats s).orElse fun _ => heuristicParts s

/-- `CreatePrecostoPDF._to_date`: `datetime` → its date, `date` → itself,
`None` → `None`, otherwise parse `str(x)`. -/
def toDate : PyVal → Option Date
  | .noneV => none
  | .datetimeV d => some d
  | .dateV d => some d
  | x => toDateStr (pyStr x)

/-! ### The ledger as a dataframe

A pandas dataframe is embedded as its ordered column labels plus one
association list per row (label ↦ cell, in column order). `WF` states the
pandas invariant that every row carries exactly the frame's columns. -/

/-- One ledger row: column label ↦ cell value, in column order. -/
abbrev Row := List (List Char × PyVal)

/-- A pandas dataframe: ordered column labels and rows. -/
structure DataFrame where
  cols : List (List Char)
  rows : List Row
deriving DecidableEq, Repr

/-- `row[c]`: cell of column `c` under the association-list row encoding
(present in every row of a well-formed frame; `noneV` as formal default). -/
def getCol : Row → List Char → PyVal
  | [], _ => .noneV
  | (k, v) :: rest, c => if k = c then v else getCol rest c

/-- Keys of a row. -/
def rowKeys (r : Row) : List (List Char) := r.map Prod.fst

/-- Every row carries exactly the frame's columns. -/
def DataFrame.WF (df : DataFrame) : Prop :=
  ∀ r ∈ df.rows, rowKeys r = df.cols

instance (df : DataFrame) : Decidable df.WF := by
  unfold DataFrame.WF; infer_instance

/-- Set column `c` of a row to `v`: overwrite in place if present, else
append (pandas column assignment). -/
def setCell (r : Row) (c : List Char) (v : PyVal) : Row :=
  if c ∈ rowKeys r then r.map (fun p => if p.1 = c then (c, v) else p)
  else r ++ [(c, v)]

/-- `df[c] = df.apply(f, axis=1)`: assign a computed column. -/
def DataFrame.setColWith (df : DataFrame) (c : List Char) (f : Row → PyVal) :
    DataFrame :=
  { cols := if c ∈ df.cols then df.cols else df.cols ++ [c]
    rows := df.rows.map (fun r => setCell r c (f r)) }

/-- `df.drop(columns=[c])`: remove every column labelled `c`. -/
def DataFrame.dropCol (df : DataFrame) (c : List Char) : DataFrame :=
  { cols := df.cols.filter (fun c' => c' ≠ c)
    rows := df.rows.map (fun r => r.filter (fun p => p.1 ≠ c)) }

/-- Boolean-mask row selection `df[mask]`. -/
def DataFrame.filterRows (df : DataFrame) (p : Row → Bool) : DataFrame :=
  { df with rows := df.rows.filter p }

/-- Lookup in the Python dict `{c.upper(): c for c in cols}`: later entries
overwrite earlier ones, so the last matching column wins. -/
def dictLookup (cols : List (List Char)) (key : List Char) : Option (List Char) :=
  cols.reverse.find? (fun c => pyUpper c = key)

/-- Wrap an optional date as the cell pandas stores for it (`NaT` ↦ `noneV`). -/
def dateCellOf : Option Date → PyVal
  | some d => .dateV d
  | none => .noneV

/-- `CreatePrecostoPDF._detect_date_columns`: single date column, or a
start/end pair (the pair wins when both exist). Candidate keys and matched
names are nonempty, so Python's truthiness tests on them coincide with
`Option` matching. -/
def detectDateColumns (df : DataFrame) :
    Option (List Char) × Option (List Char) × Option (List Char) :=
  let cols := df.cols.map pyStrip
  let u := fun k => dictLookup cols k
  let fechaUnica := (["FECHA", "FECHA_ACTIVIDAD", "FECHA_EJECUCION",
    "FECHA EJECUCION", "DATE"].map String.data).findSome? u
  let inicio := (["FECHA_INICIO", "INICIO", "FECHA INICIO", "START",
    "DESDE"].map String.data).findSome? u
  let fin := (["FECHA_FIN", "FIN", "FECHA FIN", "END", "HASTA"].map
    String.data).findSome? u
  match inicio, fin with
  | some i, some f => (none, some i, some f)
  | _, _ => (fechaUnica, none, none)

/-- Single-date branch of `filter_bd_by_range`: materialize `_to_date` of the
date column as `_FECHA_`, keep parseable dates inside `[ini, fin]`, drop the
helper column. -/
def singleDateFilter (df : DataFrame) (c : List Char) (ini fin : Date) :
    DataFrame :=
  let tmp := "_FECHA_".data
  let df1 := df.setColWith tmp (fun r => dateCellOf (toDate (getCol r c)))
  let df2 := df1.filterRows (fun r => getCol r tmp ≠ PyVal.noneV)
  let df3 := df2.filterRows (fun r =>
    match getCol r tmp with
    | .dateV d => Date.leb ini d && Date.leb d fin
    | _ => false)
  df3.dropCol tmp

/-- Start/end branch of `filter_bd_by_range`: keep rows whose `[INI, FIN]`
interval intersects `[ini, fin]` (`ini <= FIN_BD and fin >= INI_BD`). -/
def rangeFilter (df : DataFrame) (ci cf : List Char) (ini fin : Date) :
    DataFrame :=
  let ti := "_INI_".data
  let tf := "_FIN_".data
  let df1 := (df.setColWith ti (fun r => dateCellOf (toDate (getCol r ci)))).setColWith
    tf (fun r => dateCellOf (toDate (getCol r cf)))
  let df2 := df1.filterRows (fun r =>
    (getCol r ti ≠ PyVal.noneV) && (getCol r tf ≠ PyVal.noneV))
  let df3 := df2.filterRows (fun r =>
    match getCol r ti, getCol r tf with
    | .dateV di, .dateV dfi => Date.leb ini dfi && Date.leb di fin
    | _, _ => false)
  (df3.dropCol ti).dropCol tf

/-- `CreatePrecostoPDF.filter_bd_by_range`: `None` passes through; bounds
that fail `_to_date` return the ledger unfiltered; otherwise filter by the
detected date column(s), or return the frame when none is detected. -/
def filter_bd_by_range (bd : Option DataFrame) (fechaInicio fechaFin : PyVal) :
    Option DataFrame :=
  match bd with
  | none => none
  | some df =>
    match toDate fechaInicio, toDate fechaFin with
    | some ini, some fin =>
      match detectDateColumns df with
      | (some c, _, _) => some (singleDateFilter df c ini fin)
      | (none, some ci, some cf) => some (rangeFilter df ci cf ini fin)
      | _ => some df
    | _, _ => some df

/-- The business exclusion applied by `render_precosteo` after date
filtering: when the frame has a column literally named `ID_ITEM`, drop every
row whose stripped string value equals `1.21`. -/
def excludeIdItem (bd : Option DataFrame) : Option DataFrame :=
  match bd with
  | none => none
  | some df =>
    if "ID_ITEM".data ∈ df.cols then
      some (df.filterRows (fun r =>
        pyStrip (pyStr (getCol r "ID_ITEM".data)) ≠ "1.21".data))
    else some df

/-! ### `CreateResume.filter_by_date`

`pandas.to_datetime` (with the configured `dayfirst`) is an external-library
parser and is abstracted as the parameter `toDt`, applied both to the `FECHA`
cells and to the caller-supplied bound strings. -/

/-- `CreateResume.filter_by_date` with the default `ResumeConfig`
(`exclude_id_item = True`, excluded codes `("1.21",)`): raises `KeyError` on
missing required columns, raises `ValueError` when a bound fails to parse,
otherwise keeps `FECHA ∈ [fi, ff]` and applies the `ID_ITEM` exclusion. -/
def filter_by_date (toDt : PyVal → Option Date) (bd : DataFrame)
    (fechaInicio fechaFin : List Char) : Except (List Char) DataFrame :=
  let missing := (["FECHA".data, "ACTIVIDAD".data]).filter (fun c => c ∉ bd.cols)
  if !missing.isEmpty then
    .error "Faltan columnas requeridas en BD".data
  else
    let tmp := "__FECHA_DT__".data
    let df1 := bd.setColWith tmp (fun r => dateCellOf (toDt (getCol r "FECHA".data)))
    match toDt (.strV fechaInicio), toDt (.strV fechaFin) with
    | some fi, some ff =>
      let out := (df1.filterRows (fun r =>
        match getCol r tmp with
        | .dateV d => Date.leb fi d && Date.leb d ff
        | _ => false)).dropCol tmp
      if "ID_ITEM".data ∈ out.cols then
        .ok (out.filterRows (fun r =>
          ¬ pyStrip (pyStr (getCol r "ID_ITEM".data)) ∈ [("1.21".data)]))
      else .ok out
    | _, _ =>
      .error "fecha_inicio o fecha_fin no se pudieron parsear".data

/-! ### `CreatePrecostoPDF._nb_lines` — greedy word-wrap measurement

The current font's metric `get_string_width` is an external (font-dependent)
measurement and is abstracted as the parameter `sw`. Besides the count
computed by the source, `nbLinesAcc` returns the visual lines the same loop
accumulates (each `else` branch finalizes the current line; the last line is
finalized at loop end); `nbLines_eq_length_acc` ties the two. -/

/-- Inner loop of `_nb_lines` over the words of one `\n`-free part,
counting lines (starts at 1, increments at every overflow). -/
def nbLinesGo (sw : List Char → ℚ) (w : ℚ) :
    List (List Char) → List Char → ℕ → ℕ
  | [], _, lines => lines
  | wd :: ws, line, lines =>
    let test := pyStrip (line ++ ' ' :: wd)
    if sw test ≤ w - 2 then nbLinesGo sw w ws test lines
    else nbLinesGo sw w ws wd (lines + 1)

/-- Same loop, accumulating the visual lines themselves. -/
def nbLinesGoAcc (sw : List Char → ℚ) (w : ℚ) :
    List (List Char) → List Char → List (List Char) → List (List Char)
  | [], line, acc => acc ++ [line]
  | wd :: ws, line, acc =>
    let test := pyStrip (line ++ ' ' :: wd)
    if sw test ≤ w - 2 then nbLinesGoAcc sw w ws test acc
    else nbLinesGoAcc sw w ws wd (acc ++ [line])

/-- `CreatePrecostoPDF._nb_lines` on a string: remove `\r`, split on `\n`,
an empty part counts one line, a nonempty part is wrapped greedily with a
2 mm safety margin. (`txt is None` yields 1 in the source and is not hit in
the table pipeline, where `desc` is always `str(...)`.) -/
def nbLines (sw : List Char → ℚ) (w : ℚ) (txt : List Char) : ℕ :=
  if (pyRemoveChar '\r' txt).isEmpty then 1
  else
    max 1 ((pySplit '\n' (pyRemoveChar '\r' txt)).map (fun part =>
      if part.isEmpty then 1
      else nbLinesGo sw w (pySplit ' ' part) [] 1)).sum

/-- The visual lines accumulated by the measurement loop of `_nb_lines`
(an empty part stands for one empty visual line). -/
def nbLinesAcc (sw : List Char → ℚ) (w : ℚ) (txt : List Char) :
    List (List Char) :=
  if (pyRemoveChar '\r' txt).isEmpty then [[]]
  else
    ((pySplit '\n' (pyRemoveChar '\r' txt)).map (fun part =>
      if part.isEmpty then [[]]
      else nbLinesGoAcc sw w (pySplit ' ' part) [] [])).flatten

/-- The words of a text, as the measurement loop splits them. -/
def wordsOf (txt : List Char) : List (List Char) :=
  ((pySplit '\n' (pyRemoveChar '\r' txt)).map (pySplit ' ')).flatten

/-! ### `CreatePrecostoPDF._detect_table_columns` -/

/-- Resolved mapping from the six semantic roles to column labels. -/
structure ColMap where
  item : Option (List Char)
  descripcion : Option (List Char)
  unidad : Option (List Char)
  cantidad : Option (List Char)
  vUnit : Option (List Char)
  vTotal : Option (List Char)
deriving DecidableEq, Repr

/-- `pick(*candidates)`: first candidate whose uppercase form is a key of the
stripped-uppercased column dict. -/
def pickCol (cols : List (List Char)) (cands : List String) : Option (List Char) :=
  (cands.map String.data).findSome? (fun k => dictLookup cols (pyUpper k))

/-- `CreatePrecostoPDF._detect_table_columns`. -/
def detectTableColumns (df : DataFrame) : ColMap :=
  let cols := df.cols.map pyStrip
  { item := pickCol cols ["ID_ITEM", "ID ÍTEM", "ID_ITEM ", "ITEM", "ÍTEM", "COD_ITEM"]
    descripcion := pickCol cols ["ACTIVIDAD", "DESCRIPCION", "DESCRIPCIÓN",
      "DESCRIPCION_ACTIVIDAD"]
    unidad := pickCol cols ["UNIDAD_MEDIDA", "UNIDAD", "UND"]
    cantidad := pickCol cols ["CANTIDAD", "CANT"]
    vUnit := pickCol cols ["VALOR_UNITARIO", "VR_UNITARIO", "VLR_UNITARIO",
      "PRECIO_UNITARIO"]
    vTotal := pickCol cols ["VALOR_TOTAL", "VR_TOTAL", "VLR_TOTAL", "TOTAL"] }

/-- `row[colmap[role]] if colmap[role] else ""`: raw cell for a role. -/
def roleCell (c? : Option (List Char)) (r : Row) : PyVal :=
  match c? with
  | some c => getCol r c
  | none => .strV []

/-- The raw `Valor Total` cell the row loop feeds to `float(...)`. -/
def vTotalCell (cm : ColMap) (r : Row) : PyVal := roleCell cm.vTotal r

/-! ### The canvas state machine for `_write_section_table`

Only the geometric cursor state matters to the claims: the current page,
the vertical cursor `y`, the automatic-page-break flag and the bottom
margin (FPDF's `page_break_trigger` is `h - b_margin`). Drawn strings and
colors do not move the cursor and are elided. FPDF drawing primitives can
raise (e.g. text-encoding or layout errors inside `cell`/`multi_cell`);
this is modelled by an abstract fault schedule: each drawing primitive
consumes one flag of `faults` and raises when it is `true` (an empty
schedule means no primitive raises). `add_page` (header/footer images plus
a line feed) is treated as non-raising, the template images having been
checked at construction time. -/

/-- Page height of a Letter page in mm (`fpdf`: 279.4). -/
def pageH : ℚ := 2794 / 10

/-- `top_margin` (24 mm) of `PDFLayoutConfig`. -/
def tMarginC : ℚ := 24

/-- `header_lift_after` (12 mm): `header()` ends with `ln(12)`. -/
def headerLift : ℚ := 12

/-- Cursor position right after `add_page()` (top margin plus header lift). -/
def contentTop : ℚ := tMarginC + headerLift

/-- Fixed table line height (`line_h = 5.5`). -/
def lineHC : ℚ := 11 / 2

/-- Fixed horizontal/vertical cell padding (`pad = 1`). -/
def rowPadC : ℚ := 1

/-- Width of the description column (`w_desc = 78`). -/
def wDescC : ℚ := 78

/-- Geometric canvas state. -/
structure PdfState where
  page : ℕ
  y : ℚ
  apb : Bool
  bMargin : ℚ
deriving DecidableEq, Repr

/-- FPDF's `page_break_trigger`: `h - b_margin`, also the manual
`bottom_limit` of the row loop. -/
def trigger (st : PdfState) : ℚ := pageH - st.bMargin

/-- `add_page()`: next page, cursor at the content top (the header
decoration paints an image at a fixed position and advances by `ln(12)`). -/
def addPageEff (st : PdfState) : PdfState :=
  { st with page := st.page + 1, y := contentTop }

/-- A cursor effect of one drawing primitive. -/
abbrev Eff := PdfState → PdfState

/-- `cell(w, h, ...)`: in automatic mode a cell crossing the trigger first
breaks the page; with `ln=1` the cursor advances by the cell height. -/
def cellEff (h : ℚ) (ln : Bool) : Eff := fun st =>
  let st := if st.apb && decide (trigger st < st.y + h) then addPageEff st else st
  if ln then { st with y := st.y + h } else st

/-- `set_xy(_, y0)` followed by `cell(w, h, ..., ln=0)`. -/
def cellAtEff (y0 h : ℚ) : Eff := fun st => cellEff h false { st with y := y0 }

/-- `ln(h)`: advance the cursor (no page-break check, never raises). -/
def lnEff (h : ℚ) : Eff := fun st => { st with y := st.y + h }

/-- `set_xy(x + pad, y0 + pad)` followed by `multi_cell(w, line_h, desc)`
drawing `k` wrapped lines: cursor ends below the last line. -/
def multiCellEff (y0 : ℚ) (k : ℕ) : Eff := fun st =>
  { st with y := y0 + rowPadC + lineHC * k }

/-- One committed (fully drawn) table row, with its computed height and the
cursor position after `set_y(y + row_h)`. -/
structure CommittedRow where
  row : Row
  height : ℚ
  yAfter : ℚ
deriving DecidableEq, Repr

/-- Machine state: canvas state, remaining fault schedule, the trace of
committed rows, the running `total_general`, and the grand total actually
drawn in the total row (instrumentation; `none` until drawn). -/
structure Mstate where
  st : PdfState
  faults : List Bool
  committed : List CommittedRow
  totalAcc : ℚ
  drawnTotal : Option ℚ
deriving DecidableEq, Repr

/-- Sequence two fallible steps: an exception short-circuits, carrying the
state at raise time. -/
def andThen (x : Except Mstate Mstate) (f : Mstate → Except Mstate Mstate) :
    Except Mstate Mstate :=
  match x with
  | .ok m => f m
  | .error m => .error m

/-- Map the success state of a fallible step. -/
def mapOk (x : Except Mstate Mstate) (f : Mstate → Mstate) :
    Except Mstate Mstate :=
  match x with
  | .ok m => .ok (f m)
  | .error m => .error m

/-- Run one fallible drawing primitive: consume a fault flag; on `true` the
primitive raises before taking effect. -/
def prim (e : Eff) (m : Mstate) : Except Mstate Mstate :=
  match m.faults with
  | [] => .ok { m with st := e m.st }
  | f :: fs =>
    if f then .error { m with faults := fs }
    else .ok { m with st := e m.st, faults := fs }

/-- Run a sequence of fallible drawing primitives. -/
def runPrims : List Eff → Mstate → Except Mstate Mstate
  | [], m => .ok m
  | e :: es, m => andThen (prim e m) (runPrims es)

/-- The eight cells of `_draw_table_header`: the yellow and blue full-width
bars (`ln=1`, 8 mm each) and the six column headers (`ln=0`, 8 mm). -/
def headerEffs : List Eff :=
  [cellEff 8 true, cellEff 8 true] ++ List.replicate 6 (cellEff 8 false)

/-- `_draw_table_header()`: the eight header cells followed by `ln(8)`. -/
def drawTableHeader (m : Mstate) : Except Mstate Mstate :=
  mapOk (runPrims headerEffs m) (fun m => { m with st := lnEff 8 m.st })

/-- The seven drawing primitives of one row, at row top `y0` with row height
`rh` and `k` description lines: item cell, description rectangle,
description `multi_cell`, then unit, quantity, unit-price and total cells,
each placed with `set_xy` at `y0`. -/
def rowEffs (y0 rh : ℚ) (k : ℕ) : List Eff :=
  [cellAtEff y0 rh, id, multiCellEff y0 k,
   cellAtEff y0 rh, cellAtEff y0 rh, cellAtEff y0 rh, cellAtEff y0 rh]

/-- One iteration of the row loop: accumulate the parsed total (unparsable
values are skipped by the `try/except`), measure the description, compute
the row height, break the page manually (redrawing the repeatable header)
when the row would cross the bottom limit, draw the row's cells, and commit
the row with `set_y(y + row_h)`. -/
def rowStep (sw : List Char → ℚ) (cm : ColMap) (row : Row) (m : Mstate) :
    Except Mstate Mstate :=
  let m := { m with totalAcc := m.totalAcc + ((pyFloat (vTotalCell cm row)).getD 0) }
  let desc := pyStrip (pyStr (roleCell cm.descripcion row))
  let k := nbLines sw (wDescC - 2 * rowPadC) desc
  let rh := lineHC * k + 2 * rowPadC
  andThen
    (if decide (trigger m.st < m.st.y + rh) then
      drawTableHeader { m with st := addPageEff m.st }
    else .ok m) (fun m1 =>
  andThen (runPrims (rowEffs m1.st.y rh k) m1) (fun m2 =>
  let stDone := { m2.st with y := m1.st.y + rh }
  .ok { m2 with st := stDone, committed := m2.committed ++ [⟨row, rh, m1.st.y + rh⟩] }))

/-- The row loop of `_write_section_table`. -/
def rowsLoop (sw : List Char → ℚ) (cm : ColMap) :
    List Row → Mstate → Except Mstate Mstate
  | [], m => .ok m
  | r :: rs, m => andThen (rowStep sw cm r m) (rowsLoop sw cm rs)

/-- The total row: the same manual page-break check for an 8 mm row, the
blank spanning cell, the `Total` label cell, the grand-total cell (recorded
as `drawnTotal` when successfully drawn), and `ln(8)`. -/
def totalBlock (m : Mstate) : Except Mstate Mstate :=
  andThen
    (if decide (trigger m.st < m.st.y + 8) then
      drawTableHeader { m with st := addPageEff m.st }
    else .ok m) (fun m =>
  andThen (runPrims [cellEff 8 false, cellEff 8 false] m) (fun m =>
  andThen (prim (cellEff 8 false) m) (fun m =>
  .ok { m with st := lnEff 8 m.st, drawnTotal := some m.totalAcc })))

/-- `CreatePrecostoPDF._write_section_table`: skip empty input; title line
(`ln(8)` plus a 7 mm title cell) and initial repeatable header under the
ambient page-break mode; save and disable automatic page break; run the row
loop and the total row inside `try`; restore the saved mode in `finally`,
on the error path as well. Returns the final machine state and whether the
body completed without raising. -/
def writeSectionTable (sw : List Char → ℚ) (st0 : PdfState)
    (faults : List Bool) (df? : Option DataFrame) : Mstate × Bool :=
  let m0 : Mstate := ⟨st0, faults, [], 0, none⟩
  match df? with
  | none => (m0, true)
  | some df =>
    if df.rows.isEmpty then (m0, true)
    else
      let cm := detectTableColumns df
      let m1 := { m0 with st := lnEff 8 m0.st }
      match andThen (prim (cellEff 7 true) m1) drawTableHeader with
      | .error m => (m, false)
      | .ok m =>
        let oldApb := m.st.apb
        let oldBm := m.st.bMargin
        let m := { m with st := { m.st with apb := false } }
        match andThen (rowsLoop sw cm df.rows m) totalBlock with
        | .ok m => ({ m with st := { m.st with apb := oldApb, bMargin := oldBm } }, true)
        | .error m => ({ m with st := { m.st with apb := oldApb, bMargin := oldBm } }, false)

/-- The activity-table portion of `render_precosteo` (date filter, `ID_ITEM`
exclusion, then the table section). The preceding narrative sections only
advance the cursor and are abstracted as the incoming canvas state `st0`;
the section title and code strings do not affect geometry. -/
def render_precosteo_table (sw : List Char → ℚ) (st0 : PdfState)
    (faults : List Bool) (bd : Option DataFrame) (fechaInicio fechaFin : PyVal) :
    Mstate × Bool :=
  writeSectionTable sw st0 faults (excludeIdItem (filter_bd_by_range bd fechaInicio fechaFin))

/-! ### `CreatePrecostoPDF.default_output_path` -/

/-- `PDFLayoutConfig.output_prefix`. -/
def outPrefixCfg : List Char := "PRECOSTEO".data

/-- Python `a or b` on strings: the empty string is falsy. -/
def pyOrStr (x : Option (List Char)) (dflt : List Char) : List Char :=
  match x with
  | none => dflt
  | some s => if s.isEmpty then dflt else s

/-- `code_part = (cod_prec or self.config.output_prefix).replace(" ", "_")`. -/
def codePartOf (codPrec : Option (List Char)) : List Char :=
  pyReplaceChar ' ' '_' (pyOrStr codPrec outPrefixCfg)

/-- The filename computed by `default_output_path` (the current date string
`YYYY-MM-DD` is external input). -/
def default_output_filename (codPrec : Option (List Char))
    (dateStr : List Char) : List Char :=
  outPrefixCfg ++ '_' :: codePartOf codPrec ++ '_' :: dateStr ++ ".pdf".data

/-- Collapse an `Except` whose error also carries the machine state (a raised
exception leaves the mutated object behind). -/
def outState : Except Mstate Mstate → Mstate
  | .ok m => m
  | .error m => m

/-- Fixed metric used by concrete witnesses: every character 1 mm wide. -/
def mmMetric : List Char → ℚ := fun l => (l.length : ℚ)

/-- Wide metric used by concrete counterexamples: every character 40 mm. -/
def wideMetric : List Char → ℚ := fun l => 40 * (l.length : ℚ)

/-- Canvas state used by concrete witnesses: page 1, cursor at 100 mm,
automatic page break on with the configured 28 mm bottom margin. -/
def probeState : PdfState := ⟨1, 100, true, 28⟩

/-! ### Concrete fixtures for witnesses and counterexamples -/

/-- A one-row ledger with a short description and total `100`. -/
def rowSimple : Row :=
  [("FECHA".data, .strV "2025-11-26".data),
   ("ACTIVIDAD".data, .strV "hola".data),
   ("VALOR_TOTAL".data, .strV "100".data)]

/-- Ledger of `rowSimple`. -/
def dfSimple : DataFrame :=
  ⟨["FECHA".data, "ACTIVIDAD".data, "VALOR_TOTAL".data], [rowSimple]⟩

/-- A two-row ledger: one parseable total, one unparsable. -/
def dfTotals : DataFrame :=
  ⟨["ACTIVIDAD".data, "VALOR_TOTAL".data],
   [[("ACTIVIDAD".data, .strV "a".data), ("VALOR_TOTAL".data, .strV "100".data)],
    [("ACTIVIDAD".data, .strV "b".data), ("VALOR_TOTAL".data, .strV "abc".data)]]⟩

/-- A description of 35 words, each alone wider than the description column
under `wideMetric`: its row is taller than a whole fresh page. -/
def longDesc : List Char :=
  "ab ab ab ab ab ab ab ab ab ab ab ab ab ab ab ab ab ab ab ab ab ab ab ab ab ab ab ab ab ab ab ab ab ab ab".data

/-- One-row ledger carrying `longDesc`. -/
def dfLong : DataFrame :=
  ⟨["ACTIVIDAD".data, "VALOR_TOTAL".data],
   [[("ACTIVIDAD".data, .strV longDesc), ("VALOR_TOTAL".data, .strV "5".data)]]⟩

/-- A ledger whose item column is named `ITEM` (a valid rendering alias)
rather than `ID_ITEM`, with an excluded-code row in range. -/
def dfItemAlias : DataFrame :=
  ⟨["FECHA".data, "ITEM".data, "ACTIVIDAD".data],
   [[("FECHA".data, .strV "2025-01-10".data), ("ITEM".data, .strV "1.21".data),
     ("ACTIVIDAD".data, .strV "x".data)]]⟩

/-- A ledger with a literal `ID_ITEM` column: one excluded row, one kept. -/
def dfIdItem : DataFrame :=
  ⟨["FECHA".data, "ID_ITEM".data, "ACTIVIDAD".data, "VALOR_TOTAL".data],
   [[("FECHA".data, .strV "2025-01-10".data), ("ID_ITEM".data, .strV " 1.21 ".data),
     ("ACTIVIDAD".data, .strV "tanques".data), ("VALOR_TOTAL".data, .strV "7".data)],
    [("FECHA".data, .strV "2025-01-11".data), ("ID_ITEM".data, .strV "2.01".data),
     ("ACTIVIDAD".data, .strV "otra".data), ("VALOR_TOTAL".data, .strV "9".data)]]⟩

/-- Three dated rows: 2025-11-26, 2025-11-30, 2025-12-20 (the spec's
end-to-end scenario). -/
def dfThreeDates : DataFrame :=
  ⟨["FECHA".data, "ACTIVIDAD".data],
   [[("FECHA".data, .strV "2025-11-26".data), ("ACTIVIDAD".data, .strV "a".data)],
    [("FECHA".data, .strV "2025-11-30".data), ("ACTIVIDAD".data, .strV "b".data)],
    [("FECHA".data, .strV "2025-12-20".data), ("ACTIVIDAD".data, .strV "c".data)]]⟩

/-- One dated row used by the reversed-range counterexample. -/
def dfOneDate : DataFrame :=
  ⟨["FECHA".data, "ACTIVIDAD".data],
   [[("FECHA".data, .strV "2025-01-05".data), ("ACTIVIDAD".data, .strV "x".data)]]⟩

/-- The surviving row of `dfItemAlias` after date filtering (the `ID_ITEM`
exclusion does not fire: the item column is named `ITEM`). -/
def rowAliasF : Row :=
  [("FECHA".data, .strV "2025-01-10".data), ("ITEM".data, .strV "1.21".data),
   ("ACTIVIDAD".data, .strV "x".data)]

/-- `dfItemAlias` after the date filter and (vacuous) exclusion. -/
def dfAliasF : DataFrame :=
  ⟨["FECHA".data, "ITEM".data, "ACTIVIDAD".data], [rowAliasF]⟩

/-- The surviving row of `dfIdItem` after date filtering and the `ID_ITEM`
exclusion (the `" 1.21 "` row is dropped). -/
def rowIdItemF : Row :=
  [("FECHA".data, .strV "2025-01-11".data), ("ID_ITEM".data, .strV "2.01".data),
   ("ACTIVIDAD".data, .strV "otra".data), ("VALOR_TOTAL".data, .strV "9".data)]

/-- `dfIdItem` after the date filter and the `ID_ITEM` exclusion. -/
def dfIdItemF : DataFrame :=
  ⟨["FECHA".data, "ID_ITEM".data, "ACTIVIDAD".data, "VALOR_TOTAL".data],
   [rowIdItemF]⟩

end Precosteo

namespace Precosteo

/-! ## Helper lemmas -/

theorem pyReplaceChar_no_pattern (a b : Char) (hab : b ≠ a) (l : List Char) :
    a ∉ pyReplaceChar a b l := by
  intro h
  rcases List.mem_map.mp h with ⟨c, _, hc⟩
  by_cases h' : c = a
  · rw [if_pos h'] at hc; exact hab hc
  · rw [if_neg h'] at hc; exact h' hc

/-! ## C10 — default output path sanitization -/

/-- C10: the default output filename replaces every space of the supplied
code by an underscore, falls back to the configured output prefix when no
code is supplied, and always has the shape
`prefix_code_date.pdf` with a space-free code segment. -/
theorem C10_output_path_sanitized (codPrec : Option (List Char))
    (dateStr : List Char) :
    ' ' ∉ codePartOf codPrec
    ∧ (codPrec = none → codePartOf codPrec = outPrefixCfg)
    ∧ default_output_filename codPrec dateStr
        = outPrefixCfg ++ '_' :: codePartOf codPrec ++ '_' :: dateStr ++ ".pdf".data := by
  refine ⟨pyReplaceChar_no_pattern ' ' '_' (by decide) _, ?_, rfl⟩
  intro h
  subst h
  decide

/-! ## C2 — greedy word-wrap measurement -/

theorem nbLinesGo_shift (sw : List Char → ℚ) (w : ℚ) :
    ∀ (ws : List (List Char)) (line : List Char) (n k : ℕ),
      nbLinesGo sw w ws line (n + k) = nbLinesGo sw w ws line n + k := by
  intro ws
  induction ws with
  | nil => intro line n k; rfl
  | cons wd rest ih =>
    intro line n k
    unfold nbLinesGo
    by_cases h : sw (pyStrip (line ++ ' ' :: wd)) ≤ w - 2
    · rw [if_pos h, if_pos h, ih]
    · rw [if_neg h, if_neg h]
      have : n + k + 1 = (n + 1) + k := by omega
      rw [this, ih]

theorem nbLinesGoAcc_length (sw : List Char → ℚ) (w : ℚ) :
    ∀ (ws : List (List Char)) (line : List Char) (acc : List (List Char)),
      (nbLinesGoAcc sw w ws line acc).length = acc.length + nbLinesGo sw w ws line 1 := by
  intro ws
  induction ws with
  | nil =>
    intro line acc
    simp [nbLinesGoAcc, nbLinesGo]
  | cons wd rest ih =>
    intro line acc
    unfold nbLinesGoAcc nbLinesGo
    by_cases h : sw (pyStrip (line ++ ' ' :: wd)) ≤ w - 2
    · rw [if_pos h, if_pos h, ih]
    · rw [if_neg h, if_neg h, ih]
      have hsh := nbLinesGo_shift sw w rest wd 1 1
      rw [hsh]
      simp only [List.length_append, List.length_singleton]
      omega

theorem nbLinesGo_ge (sw : List Char → ℚ) (w : ℚ) :
    ∀ (ws : List (List Char)) (line : List Char) (n : ℕ),
      n ≤ nbLinesGo sw w ws line n := by
  intro ws
  induction ws with
  | nil => intro line n; exact Nat.le_refl n
  | cons wd rest ih =>
    intro line n
    unfold nbLinesGo
    by_cases h : sw (pyStrip (line ++ ' ' :: wd)) ≤ w - 2
    · rw [if_pos h]; exact ih _ n
    · rw [if_neg h]; exact Nat.le_trans (Nat.le_succ n) (ih _ (n + 1))

theorem pySplit_ne_nil (sep : Char) (l : List Char) : pySplit sep l ≠ [] := by
  induction l with
  | nil => simp [pySplit]
  | cons c cs ih =>
    unfold pySplit
    by_cases h : c = sep
    · rw [if_pos h]; simp
    · rw [if_neg h]
      cases hs : pySplit sep cs with
      | nil => simp
      | cons t ts => simp

/-- The count computed by `_nb_lines` is the number of visual lines the same
loop accumulates. -/
theorem nbLines_eq_length_acc (sw : List Char → ℚ) (w : ℚ) (txt : List Char) :
    nbLines sw w txt = (nbLinesAcc sw w txt).length := by
  unfold nbLines nbLinesAcc
  by_cases he : (pyRemoveChar '\r' txt).isEmpty
  · rw [if_pos he, if_pos he]; rfl
  · rw [if_neg he, if_neg he]
    rw [List.length_flatten, List.map_map]
    have h1 : List.map (List.length ∘ fun part =>
          if part.isEmpty = true then [([] : List Char)]
          else nbLinesGoAcc sw w (pySplit ' ' part) [] [])
          (pySplit '\n' (pyRemoveChar '\r' txt))
        = List.map (fun part => if part.isEmpty = true then 1
            else nbLinesGo sw w (pySplit ' ' part) [] 1)
            (pySplit '\n' (pyRemoveChar '\r' txt)) := by
      apply List.map_congr_left
      intro part _
      by_cases h : part.isEmpty
      · simp [h, Function.comp]
      · simp only [Function.comp_apply, if_neg h]
        rw [nbLinesGoAcc_length]
        simp
    rw [h1]
    have hge : 1 ≤ (List.map (fun part => if part.isEmpty = true then 1
        else nbLinesGo sw w (pySplit ' ' part) [] 1)
        (pySplit '\n' (pyRemoveChar '\r' txt))).sum := by
      cases hs : pySplit '\n' (pyRemoveChar '\r' txt) with
      | nil => exact absurd hs (pySplit_ne_nil _ _)
      | cons p ps =>
        simp only [List.map_cons, List.sum_cons]
        by_cases h : p.isEmpty
        · rw [if_pos h]; omega
        · rw [if_neg h]
          have := nbLinesGo_ge sw w (pySplit ' ' p) [] 1
          omega
    omega

theorem nbLinesGoAcc_sound (sw : List Char → ℚ) (w : ℚ)
    (P : List Char → Prop) :
    ∀ (ws : List (List Char)) (line : List Char) (acc : List (List Char)),
      (line = [] ∨ sw line ≤ w - 2 ∨ P line) →
      (∀ wd ∈ ws, P wd) →
      (∀ l ∈ acc, l = [] ∨ sw l ≤ w - 2 ∨ P l) →
      (∀ l' ∈ nbLinesGoAcc sw w ws line acc,
        l' = [] ∨ sw l' ≤ w - 2 ∨ P l') := by
  intro ws
  induction ws with
  | nil =>
    intro line acc hline _ hacc l' hl'
    unfold nbLinesGoAcc at hl'
    rcases List.mem_append.mp hl' with h | h
    · exact hacc _ h
    · rcases List.mem_singleton.mp h with rfl
      exact hline
  | cons wd rest ih =>
    intro line acc hline hws hacc l' hl'
    unfold nbLinesGoAcc at hl'
    by_cases h : sw (pyStrip (line ++ ' ' :: wd)) ≤ w - 2
    · rw [if_pos h] at hl'
      exact ih _ _ (Or.inr (Or.inl h))
        (fun x hx => hws x (List.mem_cons_of_mem _ hx)) hacc l' hl'
    · rw [if_neg h] at hl'
      refine ih _ _ (Or.inr (Or.inr (hws wd (List.mem_cons_self _ _))))
        (fun x hx => hws x (List.mem_cons_of_mem _ hx)) ?_ l' hl'
      intro l hl
      rcases List.mem_append.mp hl with h' | h'
      · exact hacc _ h'
      · rcases List.mem_singleton.mp h' with rfl
        exact hline

/-- C2 (amended): every visual line the greedy measurement accumulates is
either empty, or within the `W - 2` safety bound, or a single word of the
input (an unbreakable word wider than `W - 2` is kept whole on its own
line); and the measured line count is deterministic and idempotent. -/
theorem C2_wrap_lines_bounded_or_words (sw : List Char → ℚ) (w : ℚ)
    (txt : List Char) :
    (∀ l ∈ nbLinesAcc sw w txt, l = [] ∨ sw l ≤ w - 2 ∨ l ∈ wordsOf txt)
    ∧ nbLines sw w txt = nbLines sw w txt := by
  refine ⟨?_, rfl⟩
  intro l hl
  unfold nbLinesAcc at hl
  by_cases he : (pyRemoveChar '\r' txt).isEmpty
  · rw [if_pos he] at hl
    simp at hl
    exact Or.inl hl
  · rw [if_neg he] at hl
    rcases List.mem_flatten.mp hl with ⟨block, hblock, hlb⟩
    rcases List.mem_map.mp hblock with ⟨part, hpart, rfl⟩
    by_cases hp : part.isEmpty
    · rw [if_pos hp] at hlb
      simp at hlb
      exact Or.inl hlb
    · rw [if_neg hp] at hlb
      refine nbLinesGoAcc_sound sw w (fun l => l ∈ wordsOf txt)
        (pySplit ' ' part) [] [] (Or.inl rfl) ?_ (by simp) l hlb
      intro wd hwd
      unfold wordsOf
      exact List.mem_flatten.mpr ⟨pySplit ' ' part,
        List.mem_map.mpr ⟨part, hpart, rfl⟩, hwd⟩

/-- C2 counterexample: with a metric of 10 units per character and width
`W = 30`, the single word `abcd` (40 units wide) is accumulated as a visual
line wider than `W - 2`, refuting the unconditional width bound. -/
theorem C2_counterexample :
    ∃ l ∈ nbLinesAcc (fun s => 10 * (s.length : ℚ)) 30 "abcd".data,
      ¬ ((fun (s : List Char) => 10 * (s.length : ℚ)) l ≤ 30 - 2) := by
  refine ⟨"abcd".data, ?_, by norm_num⟩
  simp [nbLinesAcc, nbLinesGoAcc, pySplit, pyRemoveChar, pyStrip, pyIsSpace]
  norm_num

/-- C2 witness: a two-word text whose lines all stay within the bound,
instantiating the amended theorem. -/
theorem C2_witness :
    ("hola mundo".data ∈ nbLinesAcc mmMetric 100 "hola mundo".data)
    ∧ ("hola mundo".data = ([] : List Char)
        ∨ mmMetric "hola mundo".data ≤ 100 - 2
        ∨ "hola mundo".data ∈ wordsOf "hola mundo".data) :=
  ⟨by
      simp [nbLinesAcc, nbLinesGoAcc, pySplit, pyRemoveChar, pyStrip, pyIsSpace, mmMetric]
      norm_num,
    (C2_wrap_lines_bounded_or_words mmMetric 100 "hola mundo".data).1
      "hola mundo".data
      (by
        simp [nbLinesAcc, nbLinesGoAcc, pySplit, pyRemoveChar, pyStrip, pyIsSpace, mmMetric]
        norm_num)⟩

/-! ## Association-row and dataframe lemmas -/

theorem getCol_append_not_mem (r : Row) (k : List Char) (v : PyVal)
    (h : k ∉ rowKeys r) : getCol (r ++ [(k, v)]) k = v := by
  induction r with
  | nil => simp [getCol]
  | cons p rest ih =>
    rw [rowKeys, List.map_cons] at h
    have hk : p.1 ≠ k := fun he => h (by rw [← he]; exact List.mem_cons_self _ _)
    have h' : k ∉ rowKeys rest := fun hm => h (List.mem_cons_of_mem _ hm)
    cases p with
    | mk k1 v1 =>
      simp only [List.cons_append, getCol]
      rw [if_neg hk]
      exact ih h'

theorem getCol_setCell_same (r : Row) (k : List Char) (v : PyVal)
    (h : k ∉ rowKeys r) : getCol (setCell r k v) k = v := by
  unfold setCell
  rw [if_neg h]
  exact getCol_append_not_mem r k v h

theorem filter_not_mem_keys (r : Row) (k : List Char) (h : k ∉ rowKeys r) :
    r.filter (fun p => p.1 ≠ k) = r := by
  induction r with
  | nil => rfl
  | cons p rest ih =>
    rw [rowKeys, List.map_cons] at h
    have hk : p.1 ≠ k := fun he => h (by rw [← he]; exact List.mem_cons_self _ _)
    have h' : k ∉ rowKeys rest := fun hm => h (List.mem_cons_of_mem _ hm)
    rw [List.filter_cons, if_pos (by simpa using hk), ih h']

theorem filter_setCell_not_mem (r : Row) (k : List Char) (v : PyVal)
    (h : k ∉ rowKeys r) :
    (setCell r k v).filter (fun p => p.1 ≠ k) = r := by
  unfold setCell
  rw [if_neg h, List.filter_append, filter_not_mem_keys r k h]
  have h2 : List.filter (fun p => decide (p.1 ≠ k)) [(k, v)] = [] := by simp
  rw [h2, List.append_nil]

theorem map_filter_filter_map {α β : Type} (f : α → β) (g : β → α)
    (p1 p2 : β → Bool) (q : α → Bool) :
    ∀ rows : List α, (∀ r ∈ rows, g (f r) = r ∧ ((p1 (f r) && p2 (f r)) = q r)) →
      ((((rows.map f).filter p1).filter p2).map g = rows.filter q) := by
  intro rows
  induction rows with
  | nil => intro _; rfl
  | cons r rs ih =>
    intro h
    have hr := h r (List.mem_cons_self _ _)
    have hrs := fun x hx => h x (List.mem_cons_of_mem _ hx)
    simp only [List.map_cons, List.filter_cons]
    by_cases h1 : p1 (f r)
    · rw [if_pos (by simp [h1])]
      simp only [List.filter_cons]
      by_cases h2 : p2 (f r)
      · rw [if_pos (by simp [h2])]
        have hq : q r = true := by rw [← hr.2, h1, h2]; rfl
        simp only [List.map_cons, hr.1, ih hrs]
        rw [if_pos (by simp [hq])]
      · rw [if_neg (by simpa using h2)]
        have hq : q r = false := by rw [← hr.2]; simp [h2]
        rw [ih hrs, if_neg (by simp [hq])]
    · rw [if_neg (by simpa using h1)]
      have hq : q r = false := by rw [← hr.2]; simp [h1]
      have : ((rs.map f).filter p1).filter p2 = (((r :: rs).map f).filter p1).filter p2 := by
        simp only [List.map_cons, List.filter_cons]
        rw [if_neg (by simpa using h1)]
      rw [ih hrs, if_neg (by simp [hq])]

theorem Date.leb_trans (a b c : Date) (h1 : Date.leb a b = true)
    (h2 : Date.leb b c = true) : Date.leb a c = true := by
  simp only [Date.leb, Bool.or_eq_true, Bool.and_eq_true, decide_eq_true_eq] at h1 h2 ⊢
  omega

/-- Single-date filtering characterized row-wise: the temporary `_FECHA_`
column materializes and is dropped, leaving exactly the rows whose
normalized date exists and lies in `[ini, fin]`. -/
theorem singleDateFilter_eq (df : DataFrame) (c : List Char) (ini fin : Date)
    (hwf : df.WF) (hnc : "_FECHA_".data ∉ df.cols) :
    singleDateFilter df c ini fin
      = ⟨df.cols, df.rows.filter (fun r =>
          match toDate (getCol r c) with
          | some d => Date.leb ini d && Date.leb d fin
          | none => false)⟩ := by
  unfold singleDateFilter DataFrame.setColWith DataFrame.filterRows DataFrame.dropCol
  simp only
  congr 1
  · rw [if_neg hnc, List.filter_append]
    have h1 : List.filter (fun c' => decide (c' ≠ "_FECHA_".data)) df.cols = df.cols := by
      apply List.filter_eq_self.mpr
      intro x hx
      simp only [decide_eq_true_eq]
      intro he
      apply hnc
      rw [he] at hx
      exact hx
    have h2 : List.filter (fun c' => decide (c' ≠ "_FECHA_".data)) ["_FECHA_".data] = [] := by
      simp
    rw [h1, h2, List.append_nil]
  · apply map_filter_filter_map
    intro r hr
    have hkeys : rowKeys r = df.cols := hwf r hr
    have hnm : "_FECHA_".data ∉ rowKeys r := hkeys ▸ hnc
    constructor
    · exact filter_setCell_not_mem r _ _ hnm
    · rw [getCol_setCell_same r _ _ hnm]
      cases htd : toDate (getCol r c) with
      | none => simp [dateCellOf]
      | some d => simp [dateCellOf]

/-- Definitional reduction of `filter_bd_by_range` on a present ledger. -/
theorem filter_bd_some (df : DataFrame) (fechaInicio fechaFin : PyVal) :
    filter_bd_by_range (some df) fechaInicio fechaFin
      = match toDate fechaInicio, toDate fechaFin with
        | some ini, some fin =>
          match detectDateColumns df with
          | (some c, _, _) => some (singleDateFilter df c ini fin)
          | (none, some ci, some cf) => some (rangeFilter df ci cf ini fin)
          | _ => some df
        | _, _ => some df := rfl

/-! ## C3 — single-date range filtering -/

/-- C3: in single-date mode (a detected single date column, both bounds
normalized), `filter_bd_by_range` keeps exactly the rows whose normalized
date exists and lies in `[start, end]` inclusive; rows with out-of-range or
unparsable dates are absent, in-range rows are retained, and the columns are
unchanged. -/
theorem C3_single_date_filter (df : DataFrame) (c : List Char)
    (fi ff : PyVal) (i f : Date)
    (hwf : df.WF) (hnc : "_FECHA_".data ∉ df.cols)
    (hfi : toDate fi = some i) (hff : toDate ff = some f)
    (hdet : detectDateColumns df = (some c, none, none)) :
    filter_bd_by_range (some df) fi ff
      = some ⟨df.cols, df.rows.filter (fun r =>
          match toDate (getCol r c) with
          | some d => Date.leb i d && Date.leb d f
          | none => false)⟩ := by
  rw [filter_bd_some, hfi, hff, hdet]
  exact congrArg some (singleDateFilter_eq df c i f hwf hnc)

/-- C3 witness: the spec's end-to-end scenario — three rows dated
2025-11-26, 2025-11-30 and 2025-12-20 filtered to [2025-11-26, 2025-12-18]
keep exactly the first two. -/
theorem C3_witness :
    dfThreeDates.WF
    ∧ "_FECHA_".data ∉ dfThreeDates.cols
    ∧ toDate (.strV "11/26/2025".data) = some ⟨2025, 11, 26⟩
    ∧ toDate (.strV "12/18/2025".data) = some ⟨2025, 12, 18⟩
    ∧ detectDateColumns dfThreeDates = (some "FECHA".data, none, none)
    ∧ filter_bd_by_range (some dfThreeDates) (.strV "11/26/2025".data)
        (.strV "12/18/2025".data)
      = some ⟨dfThreeDates.cols, dfThreeDates.rows.filter (fun r =>
          match toDate (getCol r "FECHA".data) with
          | some d => Date.leb ⟨2025, 11, 26⟩ d && Date.leb d ⟨2025, 12, 18⟩
          | none => false)⟩ :=
  ⟨by decide, by decide, by decide, by decide, by decide,
    C3_single_date_filter dfThreeDates "FECHA".data _ _ ⟨2025, 11, 26⟩
      ⟨2025, 12, 18⟩ (by decide) (by decide) (by decide) (by decide) (by decide)⟩

/-! ## C7 — reversed date range -/

/-- C7 counterexample: with a detected single date column, a reversed range
(start 2025-02-01 > end 2025-01-01) does not return the ledger unchanged —
it filters every row out. -/
theorem C7_counterexample :
    filter_bd_by_range (some dfOneDate) (.strV "2025-02-01".data)
        (.strV "2025-01-01".data)
      = some ⟨dfOneDate.cols, []⟩
    ∧ dfOneDate.rows ≠ [] := by
  exact ⟨by decide, by decide⟩

/-- C7 (amended): for normalized bounds with start > end in single-date
mode, the filter is not a no-op: it returns the ledger with an empty row
set (no row can satisfy both inclusive bounds); the filter is a no-op only
when a bound fails to normalize or no date column is detected. -/
theorem C7_reversed_range_empties (df : DataFrame) (c : List Char)
    (fi ff : PyVal) (i f : Date)
    (hwf : df.WF) (hnc : "_FECHA_".data ∉ df.cols)
    (hfi : toDate fi = some i) (hff : toDate ff = some f)
    (hdet : detectDateColumns df = (some c, none, none))
    (hrev : Date.leb i f = false) :
    filter_bd_by_range (some df) fi ff = some ⟨df.cols, []⟩ := by
  rw [filter_bd_some, hfi, hff, hdet]
  refine congrArg some ?_
  rw [singleDateFilter_eq df c i f hwf hnc]
  congr 1
  rw [List.filter_eq_nil_iff]
  intro r _
  cases htd : toDate (getCol r c) with
  | none => simp
  | some d =>
    simp only [Bool.and_eq_true, not_and]
    intro h1 h2
    rw [Date.leb_trans i d f h1 h2] at hrev
    exact Bool.true_eq_false.mp hrev

/-- C7 witness: the amended behavior at the concrete reversed range. -/
theorem C7_witness :
    dfOneDate.WF
    ∧ toDate (.strV "2025-02-01".data) = some ⟨2025, 2, 1⟩
    ∧ toDate (.strV "2025-01-01".data) = some ⟨2025, 1, 1⟩
    ∧ Date.leb ⟨2025, 2, 1⟩ ⟨2025, 1, 1⟩ = false
    ∧ filter_bd_by_range (some dfOneDate) (.strV "2025-02-01".data)
        (.strV "2025-01-01".data) = some ⟨dfOneDate.cols, []⟩ :=
  ⟨by decide, by decide, by decide, by decide,
    C7_reversed_range_empties dfOneDate "FECHA".data _ _ ⟨2025, 2, 1⟩
      ⟨2025, 1, 1⟩ (by decide) (by decide) (by decide) (by decide) (by decide)
      (by decide)⟩

/-! ## C6 — unparsable caller-supplied bounds -/

/-- C6 counterexample: `filter_bd_by_range` with an unparsable start bound
does not abort with an error — it silently returns the ledger unfiltered. -/
theorem C6_counterexample :
    toDate (.strV "garbage".data) = none
    ∧ filter_bd_by_range (some dfOneDate) (.strV "garbage".data)
        (.strV "2025-12-31".data) = some dfOneDate := by
  exact ⟨by decide, by decide⟩

/-- C6 (amended): when a caller-supplied bound cannot be normalized,
`CreateResume.filter_by_date` aborts with a `ValueError` (the ledger is left
unfiltered for callers that catch it), while
`CreatePrecostoPDF.filter_bd_by_range` raises nothing and silently returns
the ledger unfiltered. -/
theorem C6_unparsable_bounds (df : DataFrame) (fi ff : PyVal)
    (toDt : PyVal → Option Date) (bd2 : DataFrame) (fi2 ff2 : List Char)
    (h : toDate fi = none ∨ toDate ff = none)
    (hc1 : "FECHA".data ∈ bd2.cols) (hc2 : "ACTIVIDAD".data ∈ bd2.cols)
    (h2 : toDt (.strV fi2) = none ∨ toDt (.strV ff2) = none) :
    filter_bd_by_range (some df) fi ff = some df
    ∧ filter_by_date toDt bd2 fi2 ff2
        = .error "fecha_inicio o fecha_fin no se pudieron parsear".data := by
  constructor
  · rw [filter_bd_some]
    rcases h with h | h
    · cases hff : toDate ff <;> rw [h]
    · cases hfi : toDate fi <;> rw [h]
  · unfold filter_by_date
    have hm : List.filter (fun c => decide (c ∉ bd2.cols))
        ["FECHA".data, "ACTIVIDAD".data] = [] := by
      simp [hc1, hc2]
    rw [hm]
    rcases h2 with h2 | h2
    · cases hff : toDt (.strV ff2) <;> rw [h2] <;> rfl
    · cases hfi : toDt (.strV fi2) <;> rw [h2] <;> rfl

/-- C6 witness: concrete unparsable bounds for both filtering operations. -/
theorem C6_witness :
    (toDate (.strV "garbage".data) = none
      ∨ toDate (.strV "2025-12-31".data) = none)
    ∧ "FECHA".data ∈ dfOneDate.cols
    ∧ "ACTIVIDAD".data ∈ dfOneDate.cols
    ∧ (filter_bd_by_range (some dfOneDate) (.strV "garbage".data)
          (.strV "2025-12-31".data) = some dfOneDate
      ∧ filter_by_date (fun _ => none) dfOneDate "x".data "y".data
          = .error "fecha_inicio o fecha_fin no se pudieron parsear".data) :=
  ⟨Or.inl (by decide), by decide, by decide,
    C6_unparsable_bounds dfOneDate _ _ (fun _ => none) dfOneDate "x".data
      "y".data (Or.inl (by decide)) (by decide) (by decide) (Or.inl rfl)⟩

/-! ## C8 — day-first date normalization: character and token lemmas -/

theorem isDigit_toNat_bounds (c : Char) (h : c.isDigit = true) :
    48 ≤ c.toNat ∧ c.toNat ≤ 57 := by
  unfold Char.isDigit at h
  simp only [Bool.and_eq_true, decide_eq_true_eq] at h
  exact h

theorem digit_not_space (c : Char) (h : c.isDigit = true) :
    pyIsSpace c = false := by
  cases hps : pyIsSpace c
  · rfl
  · exfalso
    unfold pyIsSpace at hps
    simp only [Bool.or_eq_true, decide_eq_true_eq] at hps
    rcases hps with ((((h1 | h1) | h1) | h1) | h1) | h1 <;>
      first
      | (subst h1; exact absurd h (by decide))
      | (exact absurd h (by decide))

theorem dropWhile_all_false (p : Char → Bool) (l : List Char)
    (h : ∀ c ∈ l, p c = false) : l.dropWhile p = l := by
  cases l with
  | nil => rfl
  | cons c cs =>
    rw [List.dropWhile_cons, if_neg]
    simp [h c (List.mem_cons_self _ _)]

theorem pyStrip_eq_self (l : List Char) (h : ∀ c ∈ l, pyIsSpace c = false) :
    pyStrip l = l := by
  unfold pyStrip
  rw [dropWhile_all_false _ _ h,
    dropWhile_all_false _ _ (fun c hc => h c (List.mem_reverse.mp hc)),
    List.reverse_reverse]

theorem pySplit_not_mem (sep : Char) (l : List Char) (h : sep ∉ l) :
    pySplit sep l = [l] := by
  induction l with
  | nil => rfl
  | cons c cs ih =>
    have hc : c ≠ sep := fun he => h (by rw [he]; exact List.mem_cons_self _ _)
    have h' : sep ∉ cs := fun hm => h (List.mem_cons_of_mem _ hm)
    unfold pySplit
    rw [if_neg hc, ih h']

theorem pySplit_append (sep : Char) (xs ys : List Char) (h : sep ∉ xs) :
    pySplit sep (xs ++ sep :: ys) = xs :: pySplit sep ys := by
  induction xs with
  | nil =>
    show pySplit sep (sep :: ys) = [] :: pySplit sep ys
    conv_lhs => unfold pySplit
    rw [if_pos rfl]
  | cons c cs ih =>
    have hc : c ≠ sep := fun he => h (by rw [he]; exact List.mem_cons_self _ _)
    have h' : sep ∉ cs := fun hm => h (List.mem_cons_of_mem _ hm)
    show pySplit sep (c :: (cs ++ sep :: ys)) = (c :: cs) :: pySplit sep ys
    conv_lhs => unfold pySplit
    rw [if_neg hc, ih h']

theorem digitsToNat_foldl_lt (l : List Char) :
    ∀ a : ℕ, (∀ c ∈ l, c.isDigit = true) →
      List.foldl (fun a c => 10 * a + (c.toNat - 48)) a l < (a + 1) * 10 ^ l.length := by
  induction l with
  | nil => intro a _; simpa using Nat.lt_succ_self a
  | cons c cs ih =>
    intro a h
    have hc := isDigit_toNat_bounds c (h c (List.mem_cons_self _ _))
    simp only [List.foldl_cons, List.length_cons]
    have h1 := ih (10 * a + (c.toNat - 48)) (fun x hx => h x (List.mem_cons_of_mem _ hx))
    have h2 : (10 * a + (c.toNat - 48) + 1) * 10 ^ cs.length
        ≤ (a + 1) * 10 ^ (cs.length + 1) := by
      rw [pow_succ]
      calc (10 * a + (c.toNat - 48) + 1) * 10 ^ cs.length
          ≤ ((a + 1) * 10) * 10 ^ cs.length :=
            Nat.mul_le_mul_right _ (by omega)
        _ = (a + 1) * (10 ^ cs.length * 10) := by ring
    exact lt_of_lt_of_le h1 h2

theorem digitsToNat_lt (l : List Char) (h : ∀ c ∈ l, c.isDigit = true) :
    digitsToNat l < 10 ^ l.length := by
  have := digitsToNat_foldl_lt l 0 h
  simpa [digitsToNat] using this

theorem tokDay_inv (l : List Char) (a : ℤ) (h : tokDay l = some a) :
    (∀ c ∈ l, c.isDigit = true) ∧ l ≠ [] ∧ l.length ≤ 2
    ∧ a = ((digitsToNat l : ℕ) : ℤ) ∧ 1 ≤ a ∧ a ≤ 31 := by
  unfold tokDay at h
  split at h
  · next hc =>
    obtain ⟨hlen, hdig, hlo, hhi⟩ := hc
    simp only [Option.some.injEq] at h
    refine ⟨fun c hc => by simpa using (List.all_eq_true.mp hdig c hc), ?_, ?_, h.symm, ?_, ?_⟩
    · intro he; rw [he] at hlen; simp at hlen
    · omega
    · omega
    · omega
  · exact absurd h (by simp)

theorem tokMonth_inv (l : List Char) (b : ℤ) (h : tokMonth l = some b) :
    (∀ c ∈ l, c.isDigit = true) ∧ l ≠ [] ∧ l.length ≤ 2
    ∧ b = ((digitsToNat l : ℕ) : ℤ) ∧ 1 ≤ b ∧ b ≤ 12 := by
  unfold tokMonth at h
  split at h
  · next hc =>
    obtain ⟨hlen, hdig, hlo, hhi⟩ := hc
    simp only [Option.some.injEq] at h
    refine ⟨fun c hc => by simpa using (List.all_eq_true.mp hdig c hc), ?_, ?_, h.symm, ?_, ?_⟩
    · intro he; rw [he] at hlen; simp at hlen
    · omega
    · omega
    · omega
  · exact absurd h (by simp)

theorem tokYear_inv (l : List Char) (c : ℤ) (h : tokYear l = some c) :
    (∀ ch ∈ l, ch.isDigit = true) ∧ l.length = 4
    ∧ c = ((digitsToNat l : ℕ) : ℤ) ∧ c ≤ 9999 := by
  unfold tokYear at h
  split at h
  · next hc =>
    simp only [Bool.and_eq_true, decide_eq_true_eq] at hc
    obtain ⟨hlen, hdig⟩ := hc
    unfold isDigits at hdig
    simp only [Bool.and_eq_true] at hdig
    have hd : ∀ ch ∈ l, ch.isDigit = true :=
      fun ch hch => List.all_eq_true.mp hdig.2 ch hch
    simp only [Option.some.injEq] at h
    have hlt : digitsToNat l < 10 ^ l.length := digitsToNat_lt l hd
    rw [hlen] at hlt
    norm_num at hlt
    exact ⟨hd, hlen, h.symm, by rw [← h]; exact_mod_cast Nat.lt_succ_iff.mp (by omega)⟩
  · exact absurd h (by simp)

theorem tokYear_none (l : List Char) (h : l.length ≠ 4) : tokYear l = none := by
  unfold tokYear
  rw [if_neg]
  simp [h]

theorem uDigitsValid_of_digits (l : List Char) (hne : l ≠ [])
    (h : ∀ c ∈ l, c.isDigit = true) : uDigitsValid l = true := by
  unfold uDigitsValid
  simp only [Bool.and_eq_true]
  refine ⟨⟨⟨⟨?_, ?_⟩, ?_⟩, ?_⟩, ?_⟩
  · cases l with
    | nil => exact absurd rfl hne
    | cons c cs => rfl
  · exact List.all_eq_true.mpr (fun c hc => by simp [h c hc])
  · cases l with
    | nil => exact absurd rfl hne
    | cons c cs => simpa using h c (List.mem_cons_self _ _)
  · cases hl : l.getLast? with
    | none => rw [List.getLast?_eq_none_iff] at hl; exact absurd hl hne
    | some c =>
      have hcm : c ∈ l.getLast? := by rw [hl]; rfl
      rcases List.mem_getLast?_eq_getLast hcm with ⟨hne2, hcx⟩
      have hm : c ∈ l := by rw [hcx]; exact List.getLast_mem hne2
      simpa using h c hm
  · refine List.all_eq_true.mpr (fun p hp => ?_)
    have h1 := (List.of_mem_zip hp).1
    have hd := h p.1 h1
    have : p.1 ≠ '_' := fun he => by rw [he] at hd; exact absurd hd (by decide)
    simp [this]

theorem uDigitsVal_of_digits (l : List Char)
    (h : ∀ c ∈ l, c.isDigit = true) : uDigitsVal l = digitsToNat l := by
  unfold uDigitsVal
  congr 1
  apply List.filter_eq_self.mpr
  intro c hc
  have hd := h c hc
  simp only [decide_eq_true_eq]
  intro he
  rw [he] at hd
  exact absurd hd (by decide)

theorem pyInt_digits (l : List Char) (hne : l ≠ [])
    (h : ∀ c ∈ l, c.isDigit = true) :
    pyInt l = some ((digitsToNat l : ℕ) : ℤ) := by
  have hs : pyStrip l = l := pyStrip_eq_self l (fun c hc => digit_not_space c (h c hc))
  have hhead : ∀ x : Char, (pyStrip l).head? = some x → x.isDigit = true := by
    intro x hx
    rw [hs] at hx
    cases l with
    | nil => simp at hx
    | cons c cs =>
      simp only [List.head?_cons, Option.some.injEq] at hx
      rw [← hx]
      exact h c (List.mem_cons_self _ _)
  unfold pyInt
  rw [if_neg, if_neg, hs, if_pos (uDigitsValid_of_digits l hne h),
    uDigitsVal_of_digits l h]
  · intro hc
    have := hhead '-' hc
    exact absurd this (by decide)
  · intro hc
    have := hhead '+' hc
    exact absurd this (by decide)

theorem daysInMonth_ge (y m : ℤ) : 13 ≤ daysInMonth y m := by
  unfold daysInMonth
  split_ifs <;> norm_num

theorem mkDate_eq_some (y m d : ℤ) (h1 : 1 ≤ y) (h2 : y ≤ 9999) (h3 : 1 ≤ m)
    (h4 : m ≤ 12) (h5 : 1 ≤ d) (h6 : d ≤ 12) : mkDate y m d = some ⟨y, m, d⟩ := by
  have hdm := daysInMonth_ge y m
  unfold mkDate
  rw [if_pos]
  simp only [Bool.and_eq_true, decide_eq_true_eq]
  exact ⟨⟨⟨⟨⟨h1, h2⟩, h3⟩, h4⟩, h5⟩, by omega⟩

theorem mkDate_inv (y m d : ℤ) (dt : Date) (h : mkDate y m d = some dt) :
    dt = ⟨y, m, d⟩ ∧ 1 ≤ dt.m ∧ dt.m ≤ 12 := by
  unfold mkDate at h
  split at h
  · next hc =>
    simp only [Bool.and_eq_true, decide_eq_true_eq] at hc
    simp only [Option.some.injEq] at h
    refine ⟨h.symm, ?_, ?_⟩ <;> (rw [← h]; simp only []; omega)
  · exact absurd h (by simp)

theorem toDate_strV (s : List Char) : toDate (.strV s) = toDateStr s := rfl

theorem parseField_day (l : List Char) : parseField .day l = tokDay l := rfl

theorem parseField_month (l : List Char) : parseField .month l = tokMonth l := rfl

theorem parseField_year (l : List Char) : parseField .year l = tokYear l := rfl

theorem strptime3_of_not_mem (sep : Char) (f1 f2 f3 : DField)
    (asm : ℤ → ℤ → ℤ → Option Date) (s : List Char) (h : sep ∉ s) :
    strptime3 sep f1 f2 f3 asm s = none := by
  unfold strptime3
  rw [pySplit_not_mem sep s h]

theorem strptime3_three (sep : Char) (f1 f2 f3 : DField)
    (asm : ℤ → ℤ → ℤ → Option Date) (ta tb tc : List Char)
    (h1 : sep ∉ ta) (h2 : sep ∉ tb) (h3 : sep ∉ tc) :
    strptime3 sep f1 f2 f3 asm (ta ++ sep :: (tb ++ sep :: tc))
      = match parseField f1 ta, parseField f2 tb, parseField f3 tc with
        | some va, some vb, some vc => asm va vb vc
        | _, _, _ => none := by
  unfold strptime3
  rw [pySplit_append sep ta _ h1, pySplit_append sep tb _ h2,
    pySplit_not_mem sep tc h3]

theorem digits_ne (l : List Char) (h : ∀ c ∈ l, c.isDigit = true)
    (x : Char) (hx : x.isDigit = false) : ∀ c ∈ l, c ≠ x := by
  intro c hc he
  have := h c hc
  rw [he, hx] at this
  exact Bool.false_ne_true this

theorem not_mem_of_digits (l : List Char) (h : ∀ c ∈ l, c.isDigit = true)
    (x : Char) (hx : x.isDigit = false) : x ∉ l := by
  intro hm
  have := h x hm
  rw [hx] at this
  exact Bool.false_ne_true this

theorem mem_sep3 (sep : Char) (ta tb tc : List Char) (ch : Char)
    (h : ch ∈ ta ++ sep :: (tb ++ sep :: tc)) :
    ch ∈ ta ∨ ch ∈ tb ∨ ch ∈ tc ∨ ch = sep := by
  simp only [List.mem_append, List.mem_cons] at h
  tauto

theorem not_mem_sep3 (sep : Char) (ta tb tc : List Char) (x : Char)
    (h1 : x ∉ ta) (h2 : x ∉ tb) (h3 : x ∉ tc) (h4 : x ≠ sep) :
    x ∉ ta ++ sep :: (tb ++ sep :: tc) := by
  intro hm
  rcases mem_sep3 sep ta tb tc x hm with h | h | h | h
  · exact h1 h
  · exact h2 h
  · exact h3 h
  · exact h4 h

theorem replaceChar_append (a b : Char) (xs ys : List Char) :
    pyReplaceChar a b (xs ++ ys) = pyReplaceChar a b xs ++ pyReplaceChar a b ys :=
  List.map_append _ xs ys

theorem replaceChar_cons (a b c : Char) (l : List Char) :
    pyReplaceChar a b (c :: l)
      = (if c = a then b else c) :: pyReplaceChar a b l := rfl

theorem replaceChar_eq_self (a b : Char) (l : List Char)
    (h : ∀ c ∈ l, c ≠ a) : pyReplaceChar a b l = l := by
  unfold pyReplaceChar
  rw [List.map_congr_left (fun c hc => if_neg (h c hc))]
  exact List.map_id' l

theorem not_isEmpty_of_ne_nil (l : List Char) (h : l ≠ []) :
    (!l.isEmpty) = true := by
  cases l with
  | nil => exact absurd rfl h
  | cons c cs => rfl

theorem strptime3_dmy_ok (sep : Char) (ta tb tc : List Char) (a b c : ℤ)
    (hda : tokDay ta = some a) (hmb : tokMonth tb = some b)
    (hyc : tokYear tc = some c) (hc1 : 1 ≤ c) (ha12 : a ≤ 12)
    (hsa : sep ∉ ta) (hsb : sep ∉ tb) (hsc : sep ∉ tc) :
    strptime3 sep .day .month .year (fun d m y => mkDate y m d)
      (ta ++ sep :: (tb ++ sep :: tc)) = some ⟨c, b, a⟩ := by
  obtain ⟨_, _, _, _, ha1, _⟩ := tokDay_inv ta a hda
  obtain ⟨_, _, _, _, hb1, hb12⟩ := tokMonth_inv tb b hmb
  obtain ⟨_, _, _, hc9999⟩ := tokYear_inv tc c hyc
  rw [strptime3_three sep _ _ _ _ ta tb tc hsa hsb hsc, parseField_day,
    parseField_month, parseField_year, hda, hmb, hyc]
  exact mkDate_eq_some c b a hc1 hc9999 hb1 hb12 ha1 ha12

theorem strptime3_ymd_fail (sep : Char) (ta tb tc : List Char)
    (hlen : ta.length ≠ 4)
    (hsa : sep ∉ ta) (hsb : sep ∉ tb) (hsc : sep ∉ tc) :
    strptime3 sep .year .month .day (fun y m d => mkDate y m d)
      (ta ++ sep :: (tb ++ sep :: tc)) = none := by
  rw [strptime3_three sep _ _ _ _ ta tb tc hsa hsb hsc, parseField_year,
    tokYear_none ta hlen]

theorem strptime3_some_ex (sep : Char) (f1 f2 f3 : DField)
    (asm : ℤ → ℤ → ℤ → Option Date) (s : List Char) (dt : Date)
    (h : strptime3 sep f1 f2 f3 asm s = some dt) :
    ∃ x y z, asm x y z = some dt := by
  unfold strptime3 at h
  split at h
  · split at h
    · exact ⟨_, _, _, h⟩
    · exact absurd h (by simp)
  · exact absurd h (by simp)

theorem tryFormats_some_mk (s : List Char) (dt : Date)
    (h : tryFormats s = some dt) : ∃ y m d, mkDate y m d = some dt := by
  unfold tryFormats at h
  cases h1 : strptime3 '-' .year .month .day (fun y m d => mkDate y m d) s with
  | some d1 =>
    rw [h1] at h
    simp only [Option.orElse] at h
    obtain rfl : d1 = dt := by injection h
    exact strptime3_some_ex _ _ _ _ _ _ _ h1
  | none =>
    rw [h1] at h
    simp only [Option.orElse] at h
    cases h2 : strptime3 '/' .day .month .year (fun d m y => mkDate y m d) s with
    | some d1 =>
      rw [h2] at h
      simp only [Option.orElse] at h
      obtain rfl : d1 = dt := by injection h
      obtain ⟨x, y, z, hx⟩ := strptime3_some_ex _ _ _ _ _ _ _ h2
      exact ⟨z, y, x, hx⟩
    | none =>
      rw [h2] at h
      simp only [Option.orElse] at h
      cases h3 : strptime3 '/' .month .day .year (fun m d y => mkDate y m d) s with
      | some d1 =>
        rw [h3] at h
        simp only [Option.orElse] at h
        obtain rfl : d1 = dt := by injection h
        obtain ⟨x, y, z, hx⟩ := strptime3_some_ex _ _ _ _ _ _ _ h3
        exact ⟨z, x, y, hx⟩
      | none =>
        rw [h3] at h
        simp only [Option.orElse] at h
        cases h4 : strptime3 '-' .day .month .year (fun d m y => mkDate y m d) s with
        | some d1 =>
          rw [h4] at h
          simp only [Option.orElse] at h
          obtain rfl : d1 = dt := by injection h
          obtain ⟨x, y, z, hx⟩ := strptime3_some_ex _ _ _ _ _ _ _ h4
          exact ⟨z, y, x, hx⟩
        | none =>
          rw [h4] at h
          simp only [Option.orElse] at h
          exact strptime3_some_ex _ _ _ _ _ _ _ h

theorem heuristicParts_some_mk (s : List Char) (dt : Date)
    (h : heuristicParts s = some dt) : ∃ y m d, mkDate y m d = some dt := by
  unfold heuristicParts at h
  dsimp only at h
  split at h
  · split at h
    · split at h
      · split at h
        · exact ⟨_, _, _, h⟩
        · split at h
          · exact ⟨_, _, _, h⟩
          · exact ⟨_, _, _, h⟩
      · exact absurd h (by simp)
    · exact absurd h (by simp)
  · exact absurd h (by simp)

theorem toDateStr_month_bounds (s : List Char) (dt : Date)
    (h : toDateStr s = some dt) : 1 ≤ dt.m ∧ dt.m ≤ 12 := by
  unfold toDateStr at h
  dsimp only at h
  split at h
  · exact absurd h (by simp)
  · cases htf : tryFormats (pyStrip s) with
    | some d1 =>
      rw [htf] at h
      simp only [Option.orElse] at h
      obtain rfl : d1 = dt := by injection h
      obtain ⟨y, m, d, hm⟩ := tryFormats_some_mk _ _ htf
      exact (mkDate_inv y m d _ hm).2
    | none =>
      rw [htf] at h
      simp only [Option.orElse] at h
      obtain ⟨y, m, d, hm⟩ := heuristicParts_some_mk _ _ h
      exact (mkDate_inv y m d dt hm).2

theorem nosp_sep3 (sep : Char) (ta tb tc : List Char)
    (h1 : ∀ c ∈ ta, c.isDigit = true) (h2 : ∀ c ∈ tb, c.isDigit = true)
    (h3 : ∀ c ∈ tc, c.isDigit = true) (hsp : pyIsSpace sep = false) :
    ∀ ch ∈ ta ++ sep :: (tb ++ sep :: tc), pyIsSpace ch = false := by
  intro ch hch
  rcases mem_sep3 sep ta tb tc ch hch with h | h | h | h
  · exact digit_not_space ch (h1 ch h)
  · exact digit_not_space ch (h2 ch h)
  · exact digit_not_space ch (h3 ch h)
  · rw [h]; exact hsp

theorem toDateStr_reduce (s : List Char)
    (hnosp : ∀ ch ∈ s, pyIsSpace ch = false) (hlen : 4 ≤ s.length) :
    toDateStr s = (tryFormats s).orElse fun _ => heuristicParts s := by
  have hc : ¬ ((s.isEmpty || decide (pyLower s = ['n', 'a', 'n'])) = true) := by
    intro hcontra
    simp only [Bool.or_eq_true, decide_eq_true_eq] at hcontra
    rcases hcontra with h | h
    · rw [List.isEmpty_iff] at h
      rw [h] at hlen
      simp at hlen
    · have h3 := congrArg List.length h
      simp only [pyLower, List.length_map, List.length_cons,
        List.length_nil] at h3
      omega
  unfold toDateStr
  rw [pyStrip_eq_self s hnosp, if_neg hc]

/-- C8: a fully numeric three-part textual date whose first two parts are
both at most 12 — day token, month token, four-digit year token around a
`/`, `-` or `.` separator — is normalized day-first: the first part becomes
the day and the second the month. Moreover no successfully normalized
string ever carries a month outside `1..12`, so a part greater than 12 is
never interpreted as a month. -/
theorem C8_dayfirst_ambiguity (sep : Char) (ta tb tc : List Char) (a b c : ℤ)
    (hsep : sep = '/' ∨ sep = '-' ∨ sep = '.')
    (hda : tokDay ta = some a) (ha12 : a ≤ 12)
    (hmb : tokMonth tb = some b)
    (hyc : tokYear tc = some c) (hc1 : 1 ≤ c) :
    toDate (.strV (ta ++ sep :: (tb ++ sep :: tc))) = some ⟨c, b, a⟩
    ∧ (∀ s dt, toDate (.strV s) = some dt → 1 ≤ dt.m ∧ dt.m ≤ 12) := by
  obtain ⟨hdta, htane, htalen, haval, ha1, ha31⟩ := tokDay_inv ta a hda
  obtain ⟨hdtb, htbne, htblen, hbval, hb1, hb12⟩ := tokMonth_inv tb b hmb
  obtain ⟨hdtc, htclen, hcval, hc9999⟩ := tokYear_inv tc c hyc
  have htcne : tc ≠ [] := by
    intro he
    rw [he] at htclen
    simp at htclen
  refine ⟨?_, fun s dt h => toDateStr_month_bounds s dt h⟩
  have hlen : ∀ x : Char, 4 ≤ (ta ++ x :: (tb ++ x :: tc)).length := by
    intro x
    have h1 : 1 ≤ ta.length := List.length_pos.mpr htane
    simp only [List.length_append, List.length_cons]
    omega
  rcases hsep with rfl | rfl | rfl
  · -- separator `/`: the second format `%d/%m/%Y` wins, day-first
    have hsa : ('/' : Char) ∉ ta := not_mem_of_digits ta hdta '/' (by decide)
    have hsb : ('/' : Char) ∉ tb := not_mem_of_digits tb hdtb '/' (by decide)
    have hsc : ('/' : Char) ∉ tc := not_mem_of_digits tc hdtc '/' (by decide)
    have hmm : ('-' : Char) ∉ ta ++ '/' :: (tb ++ '/' :: tc) :=
      not_mem_sep3 '/' ta tb tc '-' (not_mem_of_digits ta hdta '-' (by decide))
        (not_mem_of_digits tb hdtb '-' (by decide))
        (not_mem_of_digits tc hdtc '-' (by decide)) (by decide)
    rw [toDate_strV, toDateStr_reduce _
      (nosp_sep3 '/' ta tb tc hdta hdtb hdtc (by decide)) (hlen '/')]
    have htf : tryFormats (ta ++ '/' :: (tb ++ '/' :: tc)) = some ⟨c, b, a⟩ := by
      unfold tryFormats
      rw [strptime3_of_not_mem '-' .year .month .day _ _ hmm,
        strptime3_dmy_ok '/' ta tb tc a b c hda hmb hyc hc1 ha12 hsa hsb hsc]
      rfl
    rw [htf]
    rfl
  · -- separator `-`: the ISO format fails on the short first token,
    -- then `%d-%m-%Y` wins, day-first
    have hsa : ('-' : Char) ∉ ta := not_mem_of_digits ta hdta '-' (by decide)
    have hsb : ('-' : Char) ∉ tb := not_mem_of_digits tb hdtb '-' (by decide)
    have hsc : ('-' : Char) ∉ tc := not_mem_of_digits tc hdtc '-' (by decide)
    have hms : ('/' : Char) ∉ ta ++ '-' :: (tb ++ '-' :: tc) :=
      not_mem_sep3 '-' ta tb tc '/' (not_mem_of_digits ta hdta '/' (by decide))
        (not_mem_of_digits tb hdtb '/' (by decide))
        (not_mem_of_digits tc hdtc '/' (by decide)) (by decide)
    rw [toDate_strV, toDateStr_reduce _
      (nosp_sep3 '-' ta tb tc hdta hdtb hdtc (by decide)) (hlen '-')]
    have htf : tryFormats (ta ++ '-' :: (tb ++ '-' :: tc)) = some ⟨c, b, a⟩ := by
      unfold tryFormats
      rw [strptime3_ymd_fail '-' ta tb tc (by omega) hsa hsb hsc,
        strptime3_of_not_mem '/' .day .month .year _ _ hms,
        strptime3_of_not_mem '/' .month .day .year _ _ hms,
        strptime3_dmy_ok '-' ta tb tc a b c hda hmb hyc hc1 ha12 hsa hsb hsc]
      rfl
    rw [htf]
    rfl
  · -- separator `.`: every fixed format fails and the day-first manual
    -- heuristic resolves the date
    have hsa : ('.' : Char) ∉ ta := not_mem_of_digits ta hdta '.' (by decide)
    have hsb : ('.' : Char) ∉ tb := not_mem_of_digits tb hdtb '.' (by decide)
    have hsc : ('.' : Char) ∉ tc := not_mem_of_digits tc hdtc '.' (by decide)
    have hms : ('/' : Char) ∉ ta ++ '.' :: (tb ++ '.' :: tc) :=
      not_mem_sep3 '.' ta tb tc '/' (not_mem_of_digits ta hdta '/' (by decide))
        (not_mem_of_digits tb hdtb '/' (by decide))
        (not_mem_of_digits tc hdtc '/' (by decide)) (by decide)
    have hmm : ('-' : Char) ∉ ta ++ '.' :: (tb ++ '.' :: tc) :=
      not_mem_sep3 '.' ta tb tc '-' (not_mem_of_digits ta hdta '-' (by decide))
        (not_mem_of_digits tb hdtb '-' (by decide))
        (not_mem_of_digits tc hdtc '-' (by decide)) (by decide)
    rw [toDate_strV, toDateStr_reduce _
      (nosp_sep3 '.' ta tb tc hdta hdtb hdtc (by decide)) (hlen '.')]
    have htf : tryFormats (ta ++ '.' :: (tb ++ '.' :: tc)) = none := by
      unfold tryFormats
      rw [strptime3_of_not_mem '-' .year .month .day _ _ hmm,
        strptime3_of_not_mem '/' .day .month .year _ _ hms,
        strptime3_of_not_mem '/' .month .day .year _ _ hms,
        strptime3_of_not_mem '-' .day .month .year _ _ hmm,
        strptime3_of_not_mem '/' .year .month .day _ _ hms]
      rfl
    rw [htf]
    have hrep : pyReplaceChar '-' '/' (pyReplaceChar '.' '/'
        (ta ++ '.' :: (tb ++ '.' :: tc))) = ta ++ '/' :: (tb ++ '/' :: tc) := by
      have e1 : pyReplaceChar '.' '/' (ta ++ '.' :: (tb ++ '.' :: tc))
          = ta ++ '/' :: (tb ++ '/' :: tc) := by
        rw [replaceChar_append, replaceChar_cons, replaceChar_append,
          replaceChar_cons, if_pos rfl,
          replaceChar_eq_self '.' '/' ta (digits_ne ta hdta '.' (by decide)),
          replaceChar_eq_self '.' '/' tb (digits_ne tb hdtb '.' (by decide)),
          replaceChar_eq_self '.' '/' tc (digits_ne tc hdtc '.' (by decide))]
      rw [e1]
      apply replaceChar_eq_self
      intro ch hch
      rcases mem_sep3 '/' ta tb tc ch hch with h | h | h | h
      · exact digits_ne ta hdta '-' (by decide) ch h
      · exact digits_ne tb hdtb '-' (by decide) ch h
      · exact digits_ne tc hdtc '-' (by decide) ch h
      · rw [h]; decide
    have hheu : heuristicParts (ta ++ '.' :: (tb ++ '.' :: tc))
        = some ⟨c, b, a⟩ := by
      unfold heuristicParts
      rw [hrep]
      have hs2a : ('/' : Char) ∉ ta := not_mem_of_digits ta hdta '/' (by decide)
      have hs2b : ('/' : Char) ∉ tb := not_mem_of_digits tb hdtb '/' (by decide)
      have hs2c : ('/' : Char) ∉ tc := not_mem_of_digits tc hdtc '/' (by decide)
      rw [pySplit_append '/' ta _ hs2a, pySplit_append '/' tb _ hs2b,
        pySplit_not_mem '/' tc hs2c]
      dsimp only
      rw [List.filter_cons, List.filter_cons, List.filter_cons, List.filter_nil,
        if_pos (not_isEmpty_of_ne_nil ta htane),
        if_pos (not_isEmpty_of_ne_nil tb htbne),
        if_pos (not_isEmpty_of_ne_nil tc htcne)]
      dsimp only
      rw [pyInt_digits ta htane hdta, pyInt_digits tb htbne hdtb,
        pyInt_digits tc htcne hdtc, ← haval, ← hbval, ← hcval]
      show (if tc.length = 4 then
          (if a > 12 then mkDate c b a
            else if b > 12 then mkDate c a b else mkDate c b a)
        else none) = some ⟨c, b, a⟩
      rw [if_pos htclen, if_neg (by omega : ¬ a > 12),
        if_neg (by omega : ¬ b > 12)]
      exact mkDate_eq_some c b a hc1 hc9999 hb1 hb12 ha1 ha12
    exact hheu

/-- C8 witness: `03/04/2025` normalizes day-first to April 3rd, 2025, and
normalized months always lie in `1..12`. -/
theorem C8_witness :
    toDate (.strV "03/04/2025".data) = some ⟨2025, 4, 3⟩
    ∧ (∀ s dt, toDate (.strV s) = some dt → 1 ≤ dt.m ∧ dt.m ≤ 12) :=
  C8_dayfirst_ambiguity '/' "03".data "04".data "2025".data 3 4 2025
    (Or.inl rfl) (by decide) (by decide) (by decide) (by decide) (by decide)

/-! ## Canvas machine lemmas -/

theorem addPageEff_pres (st : PdfState) :
    (addPageEff st).apb = st.apb ∧ (addPageEff st).bMargin = st.bMargin :=
  ⟨rfl, rfl⟩

theorem cellEff_pres (h : ℚ) (ln : Bool) (st : PdfState) :
    (cellEff h ln st).apb = st.apb ∧ (cellEff h ln st).bMargin = st.bMargin := by
  unfold cellEff addPageEff
  split_ifs <;> exact ⟨rfl, rfl⟩

theorem cellAtEff_pres (y0 h : ℚ) (st : PdfState) :
    (cellAtEff y0 h st).apb = st.apb ∧ (cellAtEff y0 h st).bMargin = st.bMargin := by
  unfold cellAtEff
  exact cellEff_pres h false { st with y := y0 }

theorem headerEffs_pres :
    ∀ e ∈ headerEffs, ∀ s : PdfState,
      (e s).apb = s.apb ∧ (e s).bMargin = s.bMargin := by
  intro e he s
  unfold headerEffs at he
  rcases List.mem_append.mp he with h | h
  · rcases List.mem_cons.mp h with rfl | h
    · exact cellEff_pres 8 true s
    · rcases List.mem_cons.mp h with rfl | h
      · exact cellEff_pres 8 true s
      · simp at h
  · rw [List.eq_of_mem_replicate h]
    exact cellEff_pres 8 false s

theorem rowEffs_pres (y0 rh : ℚ) (k : ℕ) :
    ∀ e ∈ rowEffs y0 rh k, ∀ s : PdfState,
      (e s).apb = s.apb ∧ (e s).bMargin = s.bMargin := by
  intro e he s
  unfold rowEffs at he
  rcases List.mem_cons.mp he with rfl | he
  · exact cellAtEff_pres y0 rh s
  rcases List.mem_cons.mp he with rfl | he
  · exact ⟨rfl, rfl⟩
  rcases List.mem_cons.mp he with rfl | he
  · exact ⟨rfl, rfl⟩
  rcases List.mem_cons.mp he with rfl | he
  · exact cellAtEff_pres y0 rh s
  rcases List.mem_cons.mp he with rfl | he
  · exact cellAtEff_pres y0 rh s
  rcases List.mem_cons.mp he with rfl | he
  · exact cellAtEff_pres y0 rh s
  rcases List.mem_cons.mp he with rfl | he
  · exact cellAtEff_pres y0 rh s
  simp at he

theorem prim_out_pres (e : Eff) (m : Mstate)
    (hp : ∀ s : PdfState, (e s).apb = s.apb ∧ (e s).bMargin = s.bMargin) :
    (outState (prim e m)).st.apb = m.st.apb
    ∧ (outState (prim e m)).st.bMargin = m.st.bMargin
    ∧ (outState (prim e m)).committed = m.committed := by
  unfold prim outState
  cases m.faults with
  | nil => exact ⟨(hp m.st).1, (hp m.st).2, rfl⟩
  | cons f fs =>
    cases f
    · exact ⟨(hp m.st).1, (hp m.st).2, rfl⟩
    · exact ⟨rfl, rfl, rfl⟩

theorem runPrims_pres (effs : List Eff) (m : Mstate)
    (hp : ∀ e ∈ effs, ∀ s : PdfState, (e s).apb = s.apb ∧ (e s).bMargin = s.bMargin) :
    (outState (runPrims effs m)).st.apb = m.st.apb
    ∧ (outState (runPrims effs m)).st.bMargin = m.st.bMargin
    ∧ (outState (runPrims effs m)).committed = m.committed := by
  induction effs generalizing m with
  | nil => exact ⟨rfl, rfl, rfl⟩
  | cons e es ih =>
    obtain ⟨st, faults, committed, totalAcc, drawnTotal⟩ := m
    have hpe := hp e (List.mem_cons_self _ _)
    have hpes := fun e' he' => hp e' (List.mem_cons_of_mem _ he')
    unfold runPrims andThen prim
    cases faults with
    | nil =>
      dsimp only
      have := ih ⟨e st, [], committed, totalAcc, drawnTotal⟩ hpes
      exact ⟨by rw [this.1]; exact (hpe st).1,
        by rw [this.2.1]; exact (hpe st).2, this.2.2⟩
    | cons f fs =>
      cases f
      · dsimp only
        rw [if_neg Bool.false_ne_true]
        have := ih ⟨e st, fs, committed, totalAcc, drawnTotal⟩ hpes
        exact ⟨by rw [this.1]; exact (hpe st).1,
          by rw [this.2.1]; exact (hpe st).2, this.2.2⟩
      · dsimp only
        rw [if_pos rfl]
        exact ⟨rfl, rfl, rfl⟩

theorem drawTableHeader_pres (m : Mstate) :
    (outState (drawTableHeader m)).st.apb = m.st.apb
    ∧ (outState (drawTableHeader m)).st.bMargin = m.st.bMargin
    ∧ (outState (drawTableHeader m)).committed = m.committed := by
  unfold drawTableHeader mapOk
  have hrp := runPrims_pres headerEffs m headerEffs_pres
  cases hr : runPrims headerEffs m with
  | ok m' =>
    rw [hr] at hrp
    exact ⟨hrp.1, hrp.2.1, hrp.2.2⟩
  | error m' =>
    rw [hr] at hrp
    exact ⟨hrp.1, hrp.2.1, hrp.2.2⟩

theorem runPrims_ok (effs : List Eff) (m m' : Mstate)
    (h : runPrims effs m = .ok m') :
    m'.st = effs.foldl (fun s e => e s) m.st ∧ m'.committed = m.committed
    ∧ m'.totalAcc = m.totalAcc ∧ m'.drawnTotal = m.drawnTotal := by
  induction effs generalizing m with
  | nil =>
    unfold runPrims at h
    injection h with h
    rw [← h]
    exact ⟨rfl, rfl, rfl, rfl⟩
  | cons e es ih =>
    obtain ⟨st, faults, committed, totalAcc, drawnTotal⟩ := m
    unfold runPrims andThen prim at h
    cases faults with
    | nil =>
      dsimp only at h
      have := ih ⟨e st, [], committed, totalAcc, drawnTotal⟩ h
      exact ⟨this.1, this.2.1, this.2.2.1, this.2.2.2⟩
    | cons f fs =>
      dsimp only at h
      cases f
      · rw [if_neg Bool.false_ne_true] at h
        have := ih ⟨e st, fs, committed, totalAcc, drawnTotal⟩ h
        exact ⟨this.1, this.2.1, this.2.2.1, this.2.2.2⟩
      · rw [if_pos rfl] at h
        exact absurd h (by simp)

theorem prim_nofault (e : Eff) (m : Mstate) (h : m.faults = []) :
    prim e m = .ok { m with st := e m.st } := by
  unfold prim
  rw [h]

theorem runPrims_nofault (effs : List Eff) (m : Mstate) (h : m.faults = []) :
    runPrims effs m = .ok { m with st := effs.foldl (fun s e => e s) m.st } := by
  induction effs generalizing m with
  | nil => simp [runPrims]
  | cons e es ih =>
    unfold runPrims andThen
    rw [prim_nofault e m h]
    dsimp only
    exact ih { m with st := e m.st } h

theorem drawTableHeader_nofault (m : Mstate) (h : m.faults = []) :
    drawTableHeader m
      = .ok { m with st := lnEff 8 (headerEffs.foldl (fun s e => e s) m.st) } := by
  unfold drawTableHeader mapOk
  rw [runPrims_nofault headerEffs m h]

theorem cellEff_skip (h : ℚ) (st : PdfState) (ha : st.apb = false) :
    cellEff h false st = st := by
  unfold cellEff
  dsimp only
  rw [ha]
  rfl

theorem cellEff_adv (h : ℚ) (st : PdfState) (ha : st.apb = false) :
    cellEff h true st = { st with y := st.y + h } := by
  unfold cellEff
  dsimp only
  conv_lhs => rw [ha]
  rfl

theorem headerEffs_fold (st : PdfState) (ha : st.apb = false) :
    List.foldl (fun s e => e s) st headerEffs = { st with y := st.y + 16 } := by
  rw [show headerEffs = [cellEff 8 true, cellEff 8 true, cellEff 8 false, cellEff 8 false,
      cellEff 8 false, cellEff 8 false, cellEff 8 false, cellEff 8 false] from rfl]
  simp only [List.foldl_cons, List.foldl_nil]
  simp only [cellEff_adv, cellEff_skip, ha]
  rw [show st.y + 8 + 8 = st.y + 16 by ring]

theorem drawTableHeader_ok_st (m m' : Mstate) (ha : m.st.apb = false)
    (h : drawTableHeader m = .ok m') :
    m'.st = { m.st with y := m.st.y + 24 }
    ∧ m'.committed = m.committed ∧ m'.totalAcc = m.totalAcc
    ∧ m'.drawnTotal = m.drawnTotal := by
  unfold drawTableHeader mapOk at h
  cases hr : runPrims headerEffs m with
  | error m2 =>
    rw [hr] at h
    dsimp only at h
    exact absurd h (by simp)
  | ok m2 =>
    rw [hr] at h
    dsimp only at h
    injection h with h
    have hk := runPrims_ok headerEffs m m2 hr
    refine ⟨?_, ?_, ?_, ?_⟩
    · rw [← h]
      show lnEff 8 m2.st = _
      rw [hk.1, headerEffs_fold m.st ha]
      dsimp only [lnEff]
      rw [show m.st.y + 16 + 8 = m.st.y + 24 by ring]
    · rw [← h]; exact hk.2.1
    · rw [← h]; exact hk.2.2.1
    · rw [← h]; exact hk.2.2.2

theorem preludeHeader_pres (m1 : Mstate) :
    (outState (andThen (prim (cellEff 7 true) m1) drawTableHeader)).st.apb = m1.st.apb
    ∧ (outState (andThen (prim (cellEff 7 true) m1) drawTableHeader)).st.bMargin
        = m1.st.bMargin
    ∧ (outState (andThen (prim (cellEff 7 true) m1) drawTableHeader)).committed
        = m1.committed := by
  have hp := prim_out_pres (cellEff 7 true) m1 (cellEff_pres 7 true)
  unfold andThen
  cases hpr : prim (cellEff 7 true) m1 with
  | ok m' =>
    rw [hpr] at hp
    dsimp only [outState] at hp ⊢
    have hd := drawTableHeader_pres m'
    exact ⟨hd.1.trans hp.1, hd.2.1.trans hp.2.1, hd.2.2.trans hp.2.2⟩
  | error m' =>
    rw [hpr] at hp
    exact hp

/-- C9: `_write_section_table` restores the automatic page-break mode (and the
bottom margin it was configured with) to exactly the incoming values on every
execution path, including when a drawing primitive raises inside the row loop
or the total row (the `finally` block) and when it raises before the mode was
ever modified (title line and initial header). -/
theorem C9_page_break_mode_restored (sw : List Char → ℚ) (st0 : PdfState)
    (faults : List Bool) (df? : Option DataFrame) :
    ((writeSectionTable sw st0 faults df?).1).st.apb = st0.apb
    ∧ ((writeSectionTable sw st0 faults df?).1).st.bMargin = st0.bMargin := by
  unfold writeSectionTable
  cases df? with
  | none => exact ⟨rfl, rfl⟩
  | some df =>
    dsimp only
    by_cases hr : df.rows.isEmpty
    · rw [if_pos hr]
      exact ⟨rfl, rfl⟩
    · rw [if_neg hr]
      have hpre := preludeHeader_pres ⟨lnEff 8 st0, faults, [], 0, none⟩
      cases hm : andThen (prim (cellEff 7 true) ⟨lnEff 8 st0, faults, [], 0, none⟩)
          drawTableHeader with
      | error m =>
        rw [hm] at hpre
        exact ⟨hpre.1, hpre.2.1⟩
      | ok m =>
        rw [hm] at hpre
        dsimp only
        split
        · exact ⟨hpre.1, hpre.2.1⟩
        · exact ⟨hpre.1, hpre.2.1⟩

theorem rowStep_spec (sw : List Char → ℚ) (cm : ColMap) (row : Row) (m : Mstate)
    (ha : m.st.apb = false) :
    (outState (rowStep sw cm row m)).st.apb = false
    ∧ (outState (rowStep sw cm row m)).st.bMargin = m.st.bMargin
    ∧ ∀ cr ∈ (outState (rowStep sw cm row m)).committed,
        cr ∈ m.committed
        ∨ (cr.row = row
           ∧ (cr.yAfter ≤ pageH - m.st.bMargin
              ∨ cr.yAfter = contentTop + 24 + cr.height)) := by
  unfold rowStep
  dsimp only
  generalize hv : (pyFloat (vTotalCell cm row)).getD 0 = v
  generalize hkk : nbLines sw (wDescC - 2 * rowPadC) (pyStrip (pyStr (roleCell cm.descripcion row))) = kk
  generalize hrh : lineHC * (kk : ℚ) + 2 * rowPadC = rh
  unfold andThen
  by_cases hbrk : trigger m.st < m.st.y + rh
  · rw [if_pos (decide_eq_true hbrk)]
    have hpres := drawTableHeader_pres
      { m with st := addPageEff m.st, totalAcc := m.totalAcc + v }
    cases hdh : drawTableHeader { m with st := addPageEff m.st, totalAcc := m.totalAcc + v } with
    | error m1 =>
      rw [hdh] at hpres
      dsimp only [outState] at hpres ⊢
      exact ⟨hpres.1.trans ha, hpres.2.1, fun cr hcr => Or.inl (hpres.2.2 ▸ hcr)⟩
    | ok m1 =>
      rw [hdh] at hpres
      dsimp only [outState] at hpres
      dsimp only
      have hok := drawTableHeader_ok_st
        { m with st := addPageEff m.st, totalAcc := m.totalAcc + v } m1 ha hdh
      have ha1 : m1.st.apb = false := by rw [hok.1]; exact ha
      have hy1 : m1.st.y = contentTop + 24 := by rw [hok.1]; rfl
      have hpp := runPrims_pres (rowEffs m1.st.y rh kk) m1 (rowEffs_pres m1.st.y rh kk)
      cases hrp : runPrims (rowEffs m1.st.y rh kk) m1 with
      | error m2 =>
        rw [hrp] at hpp
        dsimp only [outState] at hpp ⊢
        exact ⟨hpp.1.trans ha1, hpp.2.1.trans hpres.2.1,
          fun cr hcr => Or.inl ((hpp.2.2.trans hpres.2.2) ▸ hcr)⟩
      | ok m2 =>
        rw [hrp] at hpp
        dsimp only [outState] at hpp ⊢
        refine ⟨hpp.1.trans ha1, hpp.2.1.trans hpres.2.1, fun cr hcr => ?_⟩
        rcases List.mem_append.mp hcr with hin | hone
        · exact Or.inl ((hpp.2.2.trans hpres.2.2) ▸ hin)
        · rcases List.mem_singleton.mp hone with rfl
          refine Or.inr ⟨rfl, Or.inr ?_⟩
          rw [hy1]
  · rw [if_neg (by simpa using hbrk)]
    dsimp only
    have hpp := runPrims_pres (rowEffs m.st.y rh kk) { m with totalAcc := m.totalAcc + v }
      (rowEffs_pres m.st.y rh kk)
    cases hrp : runPrims (rowEffs m.st.y rh kk) { m with totalAcc := m.totalAcc + v } with
    | error m2 =>
      rw [hrp] at hpp
      dsimp only [outState] at hpp ⊢
      exact ⟨hpp.1.trans ha, hpp.2.1, fun cr hcr => Or.inl (hpp.2.2 ▸ hcr)⟩
    | ok m2 =>
      rw [hrp] at hpp
      dsimp only [outState] at hpp ⊢
      refine ⟨hpp.1.trans ha, hpp.2.1, fun cr hcr => ?_⟩
      rcases List.mem_append.mp hcr with hin | hone
      · exact Or.inl (hpp.2.2 ▸ hin)
      · rcases List.mem_singleton.mp hone with rfl
        refine Or.inr ⟨rfl, Or.inl ?_⟩
        show m.st.y + rh ≤ pageH - m.st.bMargin
        have := not_lt.mp hbrk
        unfold trigger at this
        linarith

theorem rowsLoop_spec (sw : List Char → ℚ) (cm : ColMap) (rows : List Row) (m : Mstate)
    (ha : m.st.apb = false) :
    (outState (rowsLoop sw cm rows m)).st.apb = false
    ∧ (outState (rowsLoop sw cm rows m)).st.bMargin = m.st.bMargin
    ∧ ∀ cr ∈ (outState (rowsLoop sw cm rows m)).committed,
        cr ∈ m.committed
        ∨ (cr.row ∈ rows
           ∧ (cr.yAfter ≤ pageH - m.st.bMargin
              ∨ cr.yAfter = contentTop + 24 + cr.height)) := by
  induction rows generalizing m with
  | nil => exact ⟨ha, rfl, fun cr hcr => Or.inl hcr⟩
  | cons r rs ih =>
    unfold rowsLoop andThen
    have hstep := rowStep_spec sw cm r m ha
    cases hs : rowStep sw cm r m with
    | error m1 =>
      rw [hs] at hstep
      dsimp only [outState] at hstep ⊢
      refine ⟨hstep.1, hstep.2.1, fun cr hcr => ?_⟩
      rcases hstep.2.2 cr hcr with hin | ⟨hrow, hg⟩
      · exact Or.inl hin
      · exact Or.inr ⟨by rw [hrow]; exact List.mem_cons_self r rs, hg⟩
    | ok m1 =>
      rw [hs] at hstep
      dsimp only [outState] at hstep ⊢
      have ihm := ih m1 hstep.1
      refine ⟨ihm.1, ihm.2.1.trans hstep.2.1, fun cr hcr => ?_⟩
      rcases ihm.2.2 cr hcr with hin | ⟨hrow, hg⟩
      · rcases hstep.2.2 cr hin with hin0 | ⟨hrow0, hg0⟩
        · exact Or.inl hin0
        · exact Or.inr ⟨by rw [hrow0]; exact List.mem_cons_self r rs, hg0⟩
      · refine Or.inr ⟨List.mem_cons_of_mem r hrow, ?_⟩
        rcases hg with hle | heq
        · rw [hstep.2.1] at hle
          exact Or.inl hle
        · exact Or.inr heq

theorem twoCells_pres :
    ∀ e ∈ [cellEff 8 false, cellEff 8 false], ∀ s : PdfState,
      (e s).apb = s.apb ∧ (e s).bMargin = s.bMargin := by
  intro e he s
  rcases List.mem_cons.mp he with rfl | he
  · exact cellEff_pres 8 false s
  rcases List.mem_cons.mp he with rfl | he
  · exact cellEff_pres 8 false s
  simp at he

theorem totalBlock_committed (m : Mstate) :
    (outState (totalBlock m)).committed = m.committed := by
  unfold totalBlock andThen
  by_cases hc : trigger m.st < m.st.y + 8
  · rw [if_pos (decide_eq_true hc)]
    have hd := drawTableHeader_pres { m with st := addPageEff m.st }
    cases hdh : drawTableHeader { m with st := addPageEff m.st } with
    | error m1 =>
      rw [hdh] at hd
      dsimp only [outState] at hd ⊢
      exact hd.2.2
    | ok m1 =>
      rw [hdh] at hd
      dsimp only [outState] at hd
      dsimp only
      have h2 := runPrims_pres [cellEff 8 false, cellEff 8 false] m1 twoCells_pres
      cases hr2 : runPrims [cellEff 8 false, cellEff 8 false] m1 with
      | error m2 =>
        rw [hr2] at h2
        dsimp only [outState] at h2 ⊢
        exact h2.2.2.trans hd.2.2
      | ok m2 =>
        rw [hr2] at h2
        dsimp only [outState] at h2
        dsimp only
        have h3 := prim_out_pres (cellEff 8 false) m2 (cellEff_pres 8 false)
        cases hp3 : prim (cellEff 8 false) m2 with
        | error m3 =>
          rw [hp3] at h3
          dsimp only [outState] at h3 ⊢
          exact h3.2.2.trans (h2.2.2.trans hd.2.2)
        | ok m3 =>
          rw [hp3] at h3
          dsimp only [outState] at h3 ⊢
          exact h3.2.2.trans (h2.2.2.trans hd.2.2)
  · rw [if_neg (by simpa using hc)]
    dsimp only
    have h2 := runPrims_pres [cellEff 8 false, cellEff 8 false] m twoCells_pres
    cases hr2 : runPrims [cellEff 8 false, cellEff 8 false] m with
    | error m2 =>
      rw [hr2] at h2
      dsimp only [outState] at h2 ⊢
      exact h2.2.2
    | ok m2 =>
      rw [hr2] at h2
      dsimp only [outState] at h2
      dsimp only
      have h3 := prim_out_pres (cellEff 8 false) m2 (cellEff_pres 8 false)
      cases hp3 : prim (cellEff 8 false) m2 with
      | error m3 =>
        rw [hp3] at h3
        dsimp only [outState] at h3 ⊢
        exact h3.2.2.trans h2.2.2
      | ok m3 =>
        rw [hp3] at h3
        dsimp only [outState] at h3 ⊢
        exact h3.2.2.trans h2.2.2

theorem writeSectionTable_committed (sw : List Char → ℚ) (st0 : PdfState)
    (faults : List Bool) (df? : Option DataFrame) :
    ∀ cr ∈ ((writeSectionTable sw st0 faults df?).1).committed,
      (∃ df, df? = some df ∧ cr.row ∈ df.rows)
      ∧ (cr.yAfter ≤ pageH - st0.bMargin
         ∨ cr.yAfter = contentTop + 24 + cr.height) := by
  unfold writeSectionTable
  cases df? with
  | none => intro cr hcr; exact absurd hcr (List.not_mem_nil cr)
  | some df =>
    dsimp only
    by_cases hr : df.rows.isEmpty
    · rw [if_pos hr]
      intro cr hcr
      exact absurd hcr (List.not_mem_nil cr)
    · rw [if_neg hr]
      have hpre := preludeHeader_pres ⟨lnEff 8 st0, faults, [], 0, none⟩
      cases hm : andThen (prim (cellEff 7 true) ⟨lnEff 8 st0, faults, [], 0, none⟩)
          drawTableHeader with
      | error m =>
        rw [hm] at hpre
        dsimp only [outState] at hpre
        intro cr hcr
        rw [hpre.2.2] at hcr
        exact absurd hcr (List.not_mem_nil cr)
      | ok m =>
        rw [hm] at hpre
        dsimp only [outState] at hpre
        dsimp only
        have hcom0 : m.committed = [] := hpre.2.2
        have hbm0 : m.st.bMargin = st0.bMargin := hpre.2.1
        have hloop := rowsLoop_spec sw (detectTableColumns df) df.rows
          { m with st := { m.st with apb := false } } rfl
        dsimp only at hloop
        cases hl : rowsLoop sw (detectTableColumns df) df.rows
            { m with st := { m.st with apb := false } } with
        | error mL =>
          dsimp only at hl
          rw [hl] at hloop
          rw [hbm0, hcom0] at hloop
          dsimp only [outState, andThen] at hloop ⊢
          intro cr hcr
          rcases hloop.2.2 cr hcr with hin | ⟨hrow, hg⟩
          · exact absurd hin (List.not_mem_nil cr)
          · exact ⟨⟨df, rfl, hrow⟩, hg⟩
        | ok mL =>
          dsimp only at hl
          rw [hl] at hloop
          rw [hbm0, hcom0] at hloop
          dsimp only [outState, andThen] at hloop ⊢
          have htc := totalBlock_committed mL
          cases ht : totalBlock mL with
          | error mT =>
            rw [ht] at htc
            dsimp only [outState] at htc ⊢
            intro cr hcr
            rw [htc] at hcr
            rcases hloop.2.2 cr hcr with hin | ⟨hrow, hg⟩
            · exact absurd hin (List.not_mem_nil cr)
            · exact ⟨⟨df, rfl, hrow⟩, hg⟩
          | ok mT =>
            rw [ht] at htc
            dsimp only [outState] at htc ⊢
            intro cr hcr
            rw [htc] at hcr
            rcases hloop.2.2 cr hcr with hin | ⟨hrow, hg⟩
            · exact absurd hin (List.not_mem_nil cr)
            · exact ⟨⟨df, rfl, hrow⟩, hg⟩

theorem splitFirst_no (p : Char → Bool) (l : List Char)
    (h : ∀ c ∈ l, p c = false) : splitFirst p l = (l, none) := by
  induction l with
  | nil => rfl
  | cons c cs ih =>
    have hcp : ¬(p c = true) := by simp [h c (List.mem_cons_self _ _)]
    unfold splitFirst
    rw [if_neg hcp]
    dsimp only
    rw [ih (fun x hx => h x (List.mem_cons_of_mem _ hx))]

theorem pyFloat_digits (l : List Char) (hne : l ≠ [])
    (h : ∀ c ∈ l, c.isDigit = true) :
    pyFloat (.strV l) = some ((digitsToNat l : ℚ)) := by
  have hs : pyStrip l = l := pyStrip_eq_self l (fun c hc => digit_not_space c (h c hc))
  have hhead : ∀ x : Char, l.head? = some x → x.isDigit = true := by
    intro x hx
    cases l with
    | nil => simp at hx
    | cons c cs =>
      simp only [List.head?_cons, Option.some.injEq] at hx
      rw [← hx]
      exact h c (List.mem_cons_self _ _)
  have hE : splitFirst (fun c => c = 'e' || c = 'E') l = (l, none) := by
    refine splitFirst_no _ _ (fun c hc => ?_)
    have hd := h c hc
    simp only [Bool.or_eq_false_iff, decide_eq_false_iff_not]
    exact ⟨fun he => by rw [he] at hd; exact absurd hd (by decide),
      fun he => by rw [he] at hd; exact absurd hd (by decide)⟩
  have hdot : splitFirst (fun c => c = '.') l = (l, none) := by
    refine splitFirst_no _ _ (fun c hc => ?_)
    have hd := h c hc
    simp only [decide_eq_false_iff_not]
    intro he
    rw [he] at hd
    exact absurd hd (by decide)
  show pyFloatStr l = _
  unfold pyFloatStr
  rw [hs, if_neg, if_neg]
  · unfold pyFloatBody
    rw [hE]
    dsimp only
    unfold pyFloatMantissa
    rw [hdot]
    dsimp only
    rw [if_pos (uDigitsValid_of_digits l hne h), uDigitsVal_of_digits l h]
  · intro hc
    have := hhead '-' hc
    exact absurd this (by decide)
  · intro hc
    have := hhead '+' hc
    exact absurd this (by decide)

set_option maxRecDepth 4000 in
theorem nbLines_longDesc :
    nbLines wideMetric (wDescC - 2 * rowPadC) longDesc = 36 := by
  have hrm : pyRemoveChar '\x0d' longDesc = longDesc := by decide
  have hsN : pySplit '\n' longDesc = [longDesc] := by decide
  have hsS : pySplit ' ' longDesc = List.replicate 35 ['a', 'b'] := by decide
  have hstep : ∀ n line lines, line = [] ∨ line = ['a', 'b'] →
      nbLinesGo wideMetric (wDescC - 2 * rowPadC)
        (List.replicate n ['a', 'b']) line lines = lines + n := by
    intro n
    induction n with
    | zero =>
      rintro line lines (rfl | rfl) <;> simp [nbLinesGo]
    | succ k ih =>
      rintro line lines (rfl | rfl)
      · rw [List.replicate_succ]
        simp only [nbLinesGo]
        rw [show pyStrip (([] : List Char) ++ ' ' :: ['a', 'b']) = ['a', 'b'] from by decide]
        rw [if_neg (by norm_num [wideMetric, wDescC, rowPadC])]
        rw [ih _ (lines + 1) (Or.inr rfl)]
        omega
      · rw [List.replicate_succ]
        simp only [nbLinesGo]
        rw [show pyStrip (['a', 'b'] ++ ' ' :: ['a', 'b']) = ['a', 'b', ' ', 'a', 'b'] from by decide]
        rw [if_neg (by norm_num [wideMetric, wDescC, rowPadC])]
        rw [ih _ (lines + 1) (Or.inr rfl)]
        omega
  unfold nbLines
  rw [hrm, hsN]
  rw [if_neg (by decide : ¬(longDesc.isEmpty = true))]
  simp only [List.map_cons, List.map_nil, List.sum_cons, List.sum_nil]
  rw [if_neg (by decide : ¬(longDesc.isEmpty = true))]
  rw [hsS]
  rw [hstep 35 [] 1 (Or.inl rfl)]
  norm_num

set_option maxRecDepth 8000 in
set_option maxHeartbeats 2000000 in
theorem dfLong_committed :
    ((writeSectionTable wideMetric probeState [] (some dfLong)).1).committed
      = [⟨[(['A', 'C', 'T', 'I', 'V', 'I', 'D', 'A', 'D'], PyVal.strV longDesc), (['V', 'A', 'L', 'O', 'R', '_', 'T', 'O', 'T', 'A', 'L'], PyVal.strV ['5'])],
          200, 260⟩] := by
  have hrows : dfLong.rows
      = [[(['A', 'C', 'T', 'I', 'V', 'I', 'D', 'A', 'D'], PyVal.strV longDesc), (['V', 'A', 'L', 'O', 'R', '_', 'T', 'O', 'T', 'A', 'L'], PyVal.strV ['5'])]] := rfl
  have hcm : detectTableColumns dfLong
      = ⟨none, some ['A', 'C', 'T', 'I', 'V', 'I', 'D', 'A', 'D'], none, none, none, some ['V', 'A', 'L', 'O', 'R', '_', 'T', 'O', 'T', 'A', 'L']⟩ := by rfl
  have hdesc : pyStrip (pyStr (roleCell (some ['A', 'C', 'T', 'I', 'V', 'I', 'D', 'A', 'D'])
      [(['A', 'C', 'T', 'I', 'V', 'I', 'D', 'A', 'D'], PyVal.strV longDesc), (['V', 'A', 'L', 'O', 'R', '_', 'T', 'O', 'T', 'A', 'L'], PyVal.strV ['5'])])) = longDesc := by decide
  have hk : nbLines wideMetric 76
      (pyStrip (pyStr (roleCell (some ['A', 'C', 'T', 'I', 'V', 'I', 'D', 'A', 'D'])
        [(['A', 'C', 'T', 'I', 'V', 'I', 'D', 'A', 'D'], PyVal.strV longDesc), (['V', 'A', 'L', 'O', 'R', '_', 'T', 'O', 'T', 'A', 'L'], PyVal.strV ['5'])]))) = 36 := by
    rw [hdesc]
    have h76 : (76 : ℚ) = wDescC - 2 * rowPadC := by norm_num [wDescC, rowPadC]
    rw [h76]
    exact nbLines_longDesc
  have hcell : vTotalCell
      (⟨none, some ['A', 'C', 'T', 'I', 'V', 'I', 'D', 'A', 'D'], none, none, none, some ['V', 'A', 'L', 'O', 'R', '_', 'T', 'O', 'T', 'A', 'L']⟩ : ColMap)
      [(['A', 'C', 'T', 'I', 'V', 'I', 'D', 'A', 'D'], PyVal.strV longDesc), (['V', 'A', 'L', 'O', 'R', '_', 'T', 'O', 'T', 'A', 'L'], PyVal.strV ['5'])] = PyVal.strV ['5'] := by decide
  have hv5 : pyFloat (PyVal.strV ['5']) = some 5 := by
    rw [pyFloat_digits ['5'] (by decide) (by decide)]
    rw [show digitsToNat ['5'] = 5 from by decide]
    norm_num
  norm_num [writeSectionTable, rowStep, rowsLoop, totalBlock, drawTableHeader, headerEffs,
    rowEffs, prim, runPrims, andThen, mapOk, outState, cellEff, cellAtEff, lnEff, multiCellEff,
    addPageEff, trigger, pageH, tMarginC, headerLift, contentTop, lineHC, rowPadC, wDescC,
    probeState, hrows, hcm, hk, hcell, hv5]
set_option maxRecDepth 4000 in
set_option maxHeartbeats 1000000 in
theorem dfSimple_committed :
    ((writeSectionTable mmMetric probeState [] (some dfSimple)).1).committed
      = [⟨rowSimple, 15/2, 293/2⟩] := by
  have hrne : dfSimple.rows = [rowSimple] := rfl
  have hcm : detectTableColumns dfSimple
      = ⟨none, some ['A', 'C', 'T', 'I', 'V', 'I', 'D', 'A', 'D'], none, none, none, some ['V', 'A', 'L', 'O', 'R', '_', 'T', 'O', 'T', 'A', 'L']⟩ := by rfl
  have hk : nbLines mmMetric 76
      (pyStrip (pyStr (roleCell (some ['A', 'C', 'T', 'I', 'V', 'I', 'D', 'A', 'D']) rowSimple))) = 1 := by
    rw [show pyStrip (pyStr (roleCell (some ['A', 'C', 'T', 'I', 'V', 'I', 'D', 'A', 'D']) rowSimple)) = ['h', 'o', 'l', 'a'] from by decide]
    simp [nbLines, nbLinesGo, pySplit, pyRemoveChar, pyStrip, pyIsSpace, mmMetric]
    norm_num
  have hcell : vTotalCell
      (⟨none, some ['A', 'C', 'T', 'I', 'V', 'I', 'D', 'A', 'D'], none, none, none, some ['V', 'A', 'L', 'O', 'R', '_', 'T', 'O', 'T', 'A', 'L']⟩ : ColMap)
      rowSimple = PyVal.strV ['1', '0', '0'] := by decide
  have hv : pyFloat (PyVal.strV ['1', '0', '0']) = some 100 := by
    rw [pyFloat_digits ['1', '0', '0'] (by decide) (by decide)]
    rw [show digitsToNat ['1', '0', '0'] = 100 from by decide]
    norm_num
  norm_num [writeSectionTable, rowStep, rowsLoop, totalBlock, drawTableHeader, headerEffs,
    rowEffs, prim, runPrims, andThen, mapOk, outState, cellEff, cellAtEff, lnEff, multiCellEff,
    addPageEff, trigger, pageH, tMarginC, headerLift, contentTop, lineHC, rowPadC, wDescC,
    probeState, hrne, hcm, hk, hcell, hv]

/-- C1 (amended): during table rendering every committed row that could fit on
a fresh page (its height at most the distance from the post-header content
position to the printable bottom boundary) ends at or above that boundary,
`cursor_y_after_row <= page_height - bottom_margin`: whenever cursor plus row
height would cross the boundary a page break and header redraw precede the
row. The unamended claim fails for a row taller than a whole fresh page (see
the counterexample): such a row is drawn once and overflows regardless. -/
theorem C1_committed_rows_above_bottom (sw : List Char → ℚ) (st0 : PdfState)
    (faults : List Bool) (df? : Option DataFrame) (cr : CommittedRow)
    (hcr : cr ∈ ((writeSectionTable sw st0 faults df?).1).committed)
    (hh : contentTop + 24 + cr.height ≤ pageH - st0.bMargin) :
    cr.yAfter ≤ pageH - st0.bMargin := by
  rcases (writeSectionTable_committed sw st0 faults df? cr hcr).2 with hle | heq
  · exact hle
  · rw [heq]
    linarith

/-- C1 counterexample: a single-row ledger whose description measures 36
wrapped lines (200 mm row height) under `wideMetric` commits a row whose
bottom (260 mm) lies strictly below the printable boundary (251.4 mm). -/
theorem C1_counterexample :
    ∃ cr ∈ ((writeSectionTable wideMetric probeState [] (some dfLong)).1).committed,
      pageH - probeState.bMargin < cr.yAfter := by
  refine ⟨⟨[(['A', 'C', 'T', 'I', 'V', 'I', 'D', 'A', 'D'], PyVal.strV longDesc),
            (['V', 'A', 'L', 'O', 'R', '_', 'T', 'O', 'T', 'A', 'L'], PyVal.strV ['5'])],
          200, 260⟩, ?_, ?_⟩
  · rw [dfLong_committed]
    exact List.mem_singleton_self _
  · show pageH - probeState.bMargin < 260
    norm_num [pageH, probeState]

/-- C1 witness: the short `dfSimple` row (height 7.5 mm, fitting a fresh
page) is committed with bottom 146.5 mm, above the 251.4 mm boundary. -/
theorem C1_witness :
    ((⟨rowSimple, 15/2, 293/2⟩ : CommittedRow)
        ∈ ((writeSectionTable mmMetric probeState [] (some dfSimple)).1).committed)
    ∧ contentTop + 24 + (15/2 : ℚ) ≤ pageH - probeState.bMargin
    ∧ (293/2 : ℚ) ≤ pageH - probeState.bMargin := by
  have h1 : (⟨rowSimple, 15/2, 293/2⟩ : CommittedRow)
      ∈ ((writeSectionTable mmMetric probeState [] (some dfSimple)).1).committed := by
    rw [dfSimple_committed]
    exact List.mem_singleton_self _
  have h2 : contentTop + 24 + ((⟨rowSimple, 15/2, 293/2⟩ : CommittedRow)).height
      ≤ pageH - probeState.bMargin := by
    show contentTop + 24 + (15/2 : ℚ) ≤ pageH - probeState.bMargin
    norm_num [contentTop, tMarginC, headerLift, pageH, probeState]
  exact ⟨h1, h2,
    C1_committed_rows_above_bottom mmMetric probeState [] (some dfSimple) _ h1 h2⟩

theorem rowStep_nofault (sw : List Char → ℚ) (cm : ColMap) (row : Row) (m : Mstate)
    (h : m.faults = []) :
    ∃ m', rowStep sw cm row m = .ok m' ∧ m'.faults = []
    ∧ (∃ rh ya, m'.committed = m.committed ++ [⟨row, rh, ya⟩])
    ∧ m'.totalAcc = m.totalAcc + (pyFloat (vTotalCell cm row)).getD 0
    ∧ m'.drawnTotal = m.drawnTotal := by
  unfold rowStep
  dsimp only
  generalize (pyFloat (vTotalCell cm row)).getD 0 = v
  generalize nbLines sw (wDescC - 2 * rowPadC) (pyStrip (pyStr (roleCell cm.descripcion row))) = kk
  generalize lineHC * (kk : ℚ) + 2 * rowPadC = rh
  unfold andThen
  by_cases hbrk : trigger m.st < m.st.y + rh
  · rw [if_pos (decide_eq_true hbrk)]
    rw [drawTableHeader_nofault _ (by exact h)]
    dsimp only
    rw [runPrims_nofault _ _ (by exact h)]
    dsimp only
    exact ⟨_, rfl, h, ⟨rh, _, rfl⟩, rfl, rfl⟩
  · rw [if_neg (by simpa using hbrk)]
    dsimp only
    rw [runPrims_nofault _ _ (by exact h)]
    dsimp only
    exact ⟨_, rfl, h, ⟨rh, _, rfl⟩, rfl, rfl⟩

theorem rowsLoop_nofault (sw : List Char → ℚ) (cm : ColMap) (rows : List Row)
    (m : Mstate) (h : m.faults = []) :
    ∃ m', rowsLoop sw cm rows m = .ok m' ∧ m'.faults = []
    ∧ (∃ added, m'.committed = m.committed ++ added
        ∧ added.map CommittedRow.row = rows)
    ∧ m'.totalAcc = m.totalAcc
        + (rows.map (fun r => (pyFloat (vTotalCell cm r)).getD 0)).sum
    ∧ m'.drawnTotal = m.drawnTotal := by
  induction rows generalizing m with
  | nil =>
    exact ⟨m, rfl, h, ⟨[], by simp, rfl⟩, by simp, rfl⟩
  | cons r rs ih =>
    obtain ⟨m1, hs, hf1, ⟨rh, ya, hcom1⟩, hacc1, hdt1⟩ := rowStep_nofault sw cm r m h
    obtain ⟨m2, hl, hf2, ⟨added, hcom2, hmap2⟩, hacc2, hdt2⟩ := ih m1 hf1
    refine ⟨m2, ?_, hf2, ⟨⟨r, rh, ya⟩ :: added, ?_, ?_⟩, ?_, hdt2.trans hdt1⟩
    · unfold rowsLoop andThen
      rw [hs]
      exact hl
    · rw [hcom2, hcom1, List.append_assoc]
      rfl
    · simp [hmap2]
    · rw [hacc2, hacc1]
      simp only [List.map_cons, List.sum_cons]
      ring

theorem totalBlock_nofault (m : Mstate) (h : m.faults = []) :
    ∃ m', totalBlock m = .ok m' ∧ m'.committed = m.committed
      ∧ m'.drawnTotal = some m.totalAcc := by
  unfold totalBlock andThen
  by_cases hc : trigger m.st < m.st.y + 8
  · rw [if_pos (decide_eq_true hc)]
    rw [drawTableHeader_nofault _ (by exact h)]
    dsimp only
    rw [runPrims_nofault _ _ (by exact h)]
    dsimp only
    rw [prim_nofault _ _ (by exact h)]
    dsimp only
    exact ⟨_, rfl, rfl, rfl⟩
  · rw [if_neg (by simpa using hc)]
    dsimp only
    rw [runPrims_nofault _ _ (by exact h)]
    dsimp only
    rw [prim_nofault _ _ (by exact h)]
    dsimp only
    exact ⟨_, rfl, rfl, rfl⟩

/-- C5: on a fault-free run over a nonempty ledger, the grand total drawn in
the total row equals the sum over all rendered rows of the row's total value
parsed as a number (`float(...)`, exactly zero when parsing fails, without
aborting), the rendered rows are exactly the ledger rows in order, and the
section completes without raising. -/
theorem C5_total_row_sum (sw : List Char → ℚ) (st0 : PdfState) (df : DataFrame)
    (hne : df.rows ≠ []) :
    ((writeSectionTable sw st0 [] (some df)).1).drawnTotal
      = some ((df.rows.map (fun r =>
          (pyFloat (vTotalCell (detectTableColumns df) r)).getD 0)).sum)
    ∧ ((writeSectionTable sw st0 [] (some df)).1).committed.map CommittedRow.row
        = df.rows
    ∧ (writeSectionTable sw st0 [] (some df)).2 = true := by
  unfold writeSectionTable
  dsimp only
  rw [if_neg (by simpa using hne)]
  have hok : ∃ mp, andThen (prim (cellEff 7 true) ⟨lnEff 8 st0, [], [], 0, none⟩)
      drawTableHeader = .ok mp
      ∧ mp.faults = [] ∧ mp.committed = [] ∧ mp.totalAcc = 0 ∧ mp.drawnTotal = none := by
    rw [prim_nofault _ _ rfl]
    dsimp only [andThen]
    rw [drawTableHeader_nofault _ rfl]
    exact ⟨_, rfl, rfl, rfl, rfl, rfl⟩
  obtain ⟨mp, hm, hmf, hmc, hma, hmd⟩ := hok
  rw [hm]
  dsimp only
  obtain ⟨mL, hL, hLf, ⟨added, hcom, hmap⟩, hacc, hdt⟩ :=
    rowsLoop_nofault sw (detectTableColumns df) df.rows
      { mp with st := { mp.st with apb := false } } (by exact hmf)
  dsimp only at hL hcom hacc
  rw [hL]
  dsimp only [andThen]
  obtain ⟨mT, hT, hTc, hTd⟩ := totalBlock_nofault mL hLf
  rw [hT]
  dsimp only
  have hcadd : mL.committed = added := by
    rw [hmc] at hcom
    simpa using hcom
  refine ⟨?_, ?_, rfl⟩
  · show mT.drawnTotal = _
    rw [hTd, hacc, hma]
    norm_num
  · show mT.committed.map CommittedRow.row = df.rows
    rw [hTc, hcadd, hmap]

/-- C5 witness: the two-row ledger `dfTotals` (totals `"100"` and `"abc"`)
instantiates the theorem: the unparsable total contributes zero. -/
theorem C5_witness :
    dfTotals.rows ≠ []
    ∧ (((writeSectionTable mmMetric probeState [] (some dfTotals)).1).drawnTotal
        = some ((dfTotals.rows.map (fun r =>
            (pyFloat (vTotalCell (detectTableColumns dfTotals) r)).getD 0)).sum)
      ∧ ((writeSectionTable mmMetric probeState []
            (some dfTotals)).1).committed.map CommittedRow.row = dfTotals.rows
      ∧ (writeSectionTable mmMetric probeState [] (some dfTotals)).2 = true) :=
  ⟨by decide, C5_total_row_sum mmMetric probeState dfTotals (by decide)⟩

theorem singleDateFilter_cols (df : DataFrame) (c : List Char) (ini fin : Date)
    (x : List Char) (hx : x ∈ df.cols) (hne : x ≠ "_FECHA_".data) :
    x ∈ (singleDateFilter df c ini fin).cols := by
  unfold singleDateFilter DataFrame.setColWith DataFrame.filterRows DataFrame.dropCol
  dsimp only
  refine List.mem_filter.mpr ⟨?_, by simpa using hne⟩
  split
  · exact hx
  · exact List.mem_append_left _ hx

theorem rangeFilter_cols (df : DataFrame) (ci cf : List Char) (ini fin : Date)
    (x : List Char) (hx : x ∈ df.cols) (hni : x ≠ "_INI_".data)
    (hnf : x ≠ "_FIN_".data) :
    x ∈ (rangeFilter df ci cf ini fin).cols := by
  unfold rangeFilter DataFrame.setColWith DataFrame.filterRows DataFrame.dropCol
  dsimp only
  refine List.mem_filter.mpr
    ⟨List.mem_filter.mpr ⟨?_, by simpa using hni⟩, by simpa using hnf⟩
  split <;> split <;>
    first
      | exact hx
      | exact List.mem_append_left _ hx
      | exact List.mem_append_left _ (List.mem_append_left _ hx)

theorem filter_bd_cols_id_item (df : DataFrame) (fi ff : PyVal)
    (hcol : "ID_ITEM".data ∈ df.cols) :
    ∃ df', filter_bd_by_range (some df) fi ff = some df'
      ∧ "ID_ITEM".data ∈ df'.cols := by
  unfold filter_bd_by_range
  dsimp only
  cases htd1 : toDate fi with
  | none => exact ⟨df, rfl, hcol⟩
  | some ini =>
    cases htd2 : toDate ff with
    | none => exact ⟨df, rfl, hcol⟩
    | some fin =>
      dsimp only
      rcases hdet : detectDateColumns df with ⟨c?, ci?, cf?⟩
      cases c? with
      | some c =>
        exact ⟨_, rfl, singleDateFilter_cols df c ini fin _ hcol (by decide)⟩
      | none =>
        cases ci? with
        | none => exact ⟨df, rfl, hcol⟩
        | some ci =>
          cases cf? with
          | none => exact ⟨df, rfl, hcol⟩
          | some cf =>
            exact ⟨_, rfl,
              rangeFilter_cols df ci cf ini fin _ hcol (by decide) (by decide)⟩

/-- C4 (amended): when the ledger has a column literally named `ID_ITEM`,
every row whose stripped item code equals the configured excluded code
`"1.21"` is absent from the rendered activity table regardless of its date:
the exclusion runs after the date filter, so even an in-range `"1.21"` row
never reaches the table. (Without a literal `ID_ITEM` column the exclusion is
silently skipped even when the table renders an item column under an alias
such as `ITEM` — see the counterexample.) -/
theorem C4_id_item_excluded (sw : List Char → ℚ) (st0 : PdfState)
    (faults : List Bool) (df0 : DataFrame) (fi ff : PyVal) (cr : CommittedRow)
    (hcol : "ID_ITEM".data ∈ df0.cols)
    (hcr : cr ∈ ((render_precosteo_table sw st0 faults (some df0) fi ff).1).committed) :
    pyStrip (pyStr (getCol cr.row "ID_ITEM".data)) ≠ "1.21".data := by
  obtain ⟨df1, h1, hc1⟩ := filter_bd_cols_id_item df0 fi ff hcol
  have h2 : excludeIdItem (some df1)
      = some (df1.filterRows (fun r =>
          pyStrip (pyStr (getCol r "ID_ITEM".data)) ≠ "1.21".data)) := by
    unfold excludeIdItem
    dsimp only
    rw [if_pos hc1]
  unfold render_precosteo_table at hcr
  rw [h1, h2] at hcr
  obtain ⟨⟨df', hdf', hrow⟩, _⟩ :=
    writeSectionTable_committed sw st0 faults _ cr hcr
  injection hdf' with hdf'
  rw [← hdf'] at hrow
  have hmem := List.mem_filter.mp hrow
  exact of_decide_eq_true hmem.2

theorem dfAliasF_committed :
    ((writeSectionTable mmMetric probeState [] (some dfAliasF)).1).committed
      = [⟨rowAliasF, 15/2, 293/2⟩] := by
  have hrne : dfAliasF.rows = [rowAliasF] := rfl
  have hcm : detectTableColumns dfAliasF
      = ⟨some ['I', 'T', 'E', 'M'], some ['A', 'C', 'T', 'I', 'V', 'I', 'D', 'A', 'D'],
         none, none, none, none⟩ := by rfl
  have hk : nbLines mmMetric 76
      (pyStrip (pyStr (roleCell (some ['A', 'C', 'T', 'I', 'V', 'I', 'D', 'A', 'D'])
        rowAliasF))) = 1 := by
    rw [show pyStrip (pyStr (roleCell (some ['A', 'C', 'T', 'I', 'V', 'I', 'D', 'A', 'D'])
        rowAliasF)) = ['x'] from by decide]
    simp [nbLines, nbLinesGo, pySplit, pyRemoveChar, pyStrip, pyIsSpace, mmMetric]
    norm_num
  have hcell : vTotalCell
      (⟨some ['I', 'T', 'E', 'M'], some ['A', 'C', 'T', 'I', 'V', 'I', 'D', 'A', 'D'],
        none, none, none, none⟩ : ColMap) rowAliasF = PyVal.strV [] := by decide
  have hv : pyFloat (PyVal.strV []) = none := by rfl
  norm_num [writeSectionTable, rowStep, rowsLoop, totalBlock, drawTableHeader, headerEffs,
    rowEffs, prim, runPrims, andThen, mapOk, outState, cellEff, cellAtEff, lnEff, multiCellEff,
    addPageEff, trigger, pageH, tMarginC, headerLift, contentTop, lineHC, rowPadC, wDescC,
    probeState, hrne, hcm, hk, hcell, hv]

theorem dfIdItemF_committed :
    ((writeSectionTable mmMetric probeState [] (some dfIdItemF)).1).committed
      = [⟨rowIdItemF, 15/2, 293/2⟩] := by
  have hrne : dfIdItemF.rows = [rowIdItemF] := rfl
  have hcm : detectTableColumns dfIdItemF
      = ⟨some ['I', 'D', '_', 'I', 'T', 'E', 'M'],
         some ['A', 'C', 'T', 'I', 'V', 'I', 'D', 'A', 'D'], none, none, none,
         some ['V', 'A', 'L', 'O', 'R', '_', 'T', 'O', 'T', 'A', 'L']⟩ := by rfl
  have hk : nbLines mmMetric 76
      (pyStrip (pyStr (roleCell (some ['A', 'C', 'T', 'I', 'V', 'I', 'D', 'A', 'D'])
        rowIdItemF))) = 1 := by
    rw [show pyStrip (pyStr (roleCell (some ['A', 'C', 'T', 'I', 'V', 'I', 'D', 'A', 'D'])
        rowIdItemF)) = ['o', 't', 'r', 'a'] from by decide]
    simp [nbLines, nbLinesGo, pySplit, pyRemoveChar, pyStrip, pyIsSpace, mmMetric]
    norm_num
  have hcell : vTotalCell
      (⟨some ['I', 'D', '_', 'I', 'T', 'E', 'M'],
        some ['A', 'C', 'T', 'I', 'V', 'I', 'D', 'A', 'D'], none, none, none,
        some ['V', 'A', 'L', 'O', 'R', '_', 'T', 'O', 'T', 'A', 'L']⟩ : ColMap)
      rowIdItemF = PyVal.strV ['9'] := by decide
  have hv : pyFloat (PyVal.strV ['9']) = some 9 := by
    rw [pyFloat_digits ['9'] (by decide) (by decide)]
    rw [show digitsToNat ['9'] = 9 from by decide]
    norm_num
  norm_num [writeSectionTable, rowStep, rowsLoop, totalBlock, drawTableHeader, headerEffs,
    rowEffs, prim, runPrims, andThen, mapOk, outState, cellEff, cellAtEff, lnEff, multiCellEff,
    addPageEff, trigger, pageH, tMarginC, headerLift, contentTop, lineHC, rowPadC, wDescC,
    probeState, hrne, hcm, hk, hcell, hv]

/-- C4 counterexample: a ledger whose item column is named `ITEM` (a valid
rendering alias) carries an in-range row with item code `1.21`; the exclusion
is skipped (no literal `ID_ITEM` column) and the row is rendered. -/
theorem C4_counterexample :
    ∃ cr ∈ ((render_precosteo_table mmMetric probeState [] (some dfItemAlias)
        (.strV "2025-01-05".data) (.strV "2025-01-20".data)).1).committed,
      pyStrip (pyStr (getCol cr.row "ITEM".data)) = "1.21".data := by
  have hpipe : excludeIdItem (filter_bd_by_range (some dfItemAlias)
      (.strV "2025-01-05".data) (.strV "2025-01-20".data)) = some dfAliasF := by decide
  unfold render_precosteo_table
  rw [hpipe, dfAliasF_committed]
  exact ⟨⟨rowAliasF, 15/2, 293/2⟩, List.mem_singleton_self _, by decide⟩

/-- C4 witness: `dfIdItem` has a literal `ID_ITEM` column; its committed row
(the in-range `2.01` row) instantiates the amended theorem, and the in-range
`" 1.21 "` row was excluded. -/
theorem C4_witness :
    ("ID_ITEM".data ∈ dfIdItem.cols)
    ∧ ((⟨rowIdItemF, 15/2, 293/2⟩ : CommittedRow)
        ∈ ((render_precosteo_table mmMetric probeState [] (some dfIdItem)
            (.strV "2025-01-05".data) (.strV "2025-01-20".data)).1).committed)
    ∧ pyStrip (pyStr (getCol rowIdItemF "ID_ITEM".data)) ≠ "1.21".data := by
  have hcol : "ID_ITEM".data ∈ dfIdItem.cols := by decide
  have hpipe : excludeIdItem (filter_bd_by_range (some dfIdItem)
      (.strV "2025-01-05".data) (.strV "2025-01-20".data)) = some dfIdItemF := by decide
  have hcr : (⟨rowIdItemF, 15/2, 293/2⟩ : CommittedRow)
      ∈ ((render_precosteo_table mmMetric probeState [] (some dfIdItem)
          (.strV "2025-01-05".data) (.strV "2025-01-20".data)).1).committed := by
    unfold render_precosteo_table
    rw [hpipe, dfIdItemF_committed]
    exact List.mem_singleton_self _
  exact ⟨hcol, hcr,
    C4_id_item_excluded mmMetric probeState [] dfIdItem
      (.strV "2025-01-05".data) (.strV "2025-01-20".data) _ hcol hcr⟩

end Precosteo
